import Mathlib

/-!
Shallow embedding of the SwarmPage wildfire-suppression simulation core
(`src/reactcode.jsx`): the fire-spread cellular automaton (`Environment`),
the PSO drone swarm (`DroneSwarm`) and the tick-level operations the
specification's testable properties talk about.

Modelling conventions:
* JS numbers are modelled as exact rationals `ℚ` (positions, velocities,
  elevations, probability draws) and integers `ℤ` (grid coordinates, water
  counters); each `Math.random()` stream is an explicit oracle `ℕ → ℚ`
  consumed at increasing indices, in the order the source draws.
* The JS grid `this.grid[y][x]` is the total function `grid : ℤ → ℤ → Cell`
  applied as `grid x y`; every access in the source is bounds-checked, so
  values outside the `width × height` rectangle are never consulted.
* The mutable clock `simulation_time[0] += travel_time + EXTINGUISH_TIME`
  is modelled by accumulating the list of extinguish events (requester and
  target coordinates); the real-valued clock advance of a single event is
  `clockAdvance`, the only `ℝ`-valued piece (the travel time is a Euclidean
  distance, hence a square root).
* `DroneSwarm.fitness` only feeds the personal/global-best bookkeeping, so
  `DroneSwarm.step` is parametrised by the fitness `fit : ℚ × ℚ → F` over an
  arbitrary linear order, subsuming the source's concrete landscape (which
  moreover changes between ticks as the grid mutates).  The out-of-bounds
  floor test that guards both the source's `1e6` fitness penalty
  (`fitness`, line 192) and the suppression skip (`step`, line 272) is
  embedded once as `oob_floor`.
-/

set_option allowUnsafeReducibility true in
attribute [semireducible] Rat.add Rat.mul Rat.sub Rat.div Rat.inv Rat.neg Rat.blt
  Rat.ofScientific

namespace SwarmSim

/-- One grid cell (`class Cell`): combustion flags, elevation, cooldown. -/
structure Cell where
  tree : Bool
  fire : Bool
  burnt : Bool
  water : Bool
  elevation : ℚ
  fire_cooldown : ℤ
  extinguished_by_drone : Bool
deriving DecidableEq

/-- `DRONE_SPEED = 10.0`. -/
def DRONE_SPEED : ℚ := 10

/-- `CELL_SIZE = 10`. -/
def CELL_SIZE : ℚ := 10

/-- `REFILL_TIME = 30`. -/
def REFILL_TIME : ℤ := 30

/-- `EXTINGUISH_TIME = 40`. -/
def EXTINGUISH_TIME : ℚ := 40

/-- `MAX_WATER_CAPACITY = 3`. -/
def MAX_WATER_CAPACITY : ℤ := 3

/-- The fire-spread environment (`class Environment`): grid, wind, and the
active fire list `this.active_fires`. -/
structure Environment where
  width : ℤ
  height : ℤ
  grid : ℤ → ℤ → Cell
  wind : ℤ × ℤ
  active_fires : List (ℤ × ℤ)

/-- Pointwise grid update: the JS in-place mutation `this.grid[y][x] = …`
(and field mutation on the aliased cell object). -/
def upd (g : ℤ → ℤ → Cell) (x y : ℤ) (c : Cell) : ℤ → ℤ → Cell :=
  fun a b => if a = x ∧ b = y then c else g a b

/-- JS `Math.min` on exact rationals. -/
def qmin (a b : ℚ) : ℚ := if a ≤ b then a else b

/-- JS `Math.max` on exact rationals. -/
def qmax (a b : ℚ) : ℚ := if a ≤ b then b else a

/-- JS `Math.floor` on exact rationals. -/
def qfloor (q : ℚ) : ℤ := q.num / q.den

theorem qmin_eq (a b : ℚ) : qmin a b = min a b := by
  simp [qmin, min_def]

theorem qmax_eq (a b : ℚ) : qmax a b = max a b := by
  simp [qmax, max_def]

theorem qfloor_eq (q : ℚ) : qfloor q = ⌊q⌋ := by
  rw [qfloor, Rat.floor_def]

/-- The bounds check `x >= 0 && x < width && y >= 0 && y < height`. -/
def inBounds (w h : ℤ) (p : ℤ × ℤ) : Prop :=
  0 ≤ p.1 ∧ p.1 < w ∧ 0 ≤ p.2 ∧ p.2 < h

instance (w h : ℤ) (p : ℤ × ℤ) : Decidable (inBounds w h p) := by
  unfold inBounds; infer_instance

/-- The in-bounds rectangle of grid coordinates, as a finite set. -/
def rect (w h : ℤ) : Finset (ℤ × ℤ) :=
  Finset.Ico 0 w ×ˢ Finset.Ico 0 h

/-- `Environment.ignite(x, y)`: ignite a cell if in bounds and eligible
(forest, not burning, not burnt, not water); cooldown 3; push onto the
active fire list.  No-op otherwise. -/
def Environment.ignite (env : Environment) (x y : ℤ) : Environment :=
  if inBounds env.width env.height (x, y) then
    let cell := env.grid x y
    if cell.tree ∧ ¬cell.fire ∧ ¬cell.burnt ∧ ¬cell.water then
      { env with
        grid := upd env.grid x y { cell with fire := true, fire_cooldown := 3 },
        active_fires := env.active_fires ++ [(x, y)] }
    else env
  else env

/-- One recorded clock advance of `extinguish_fire_at`: the requester
(`drone_pos`) and the extinguished target cell. -/
structure ExtEvent where
  requester : ℤ × ℤ
  target : ℤ × ℤ
deriving DecidableEq

/-- The clock advance of one extinguish event:
`sqrt(dx² + dy²) * CELL_SIZE / DRONE_SPEED + EXTINGUISH_TIME` with
`dx = x - drone_pos[0]`, `dy = y - drone_pos[1]` (source lines 121-125). -/
noncomputable def clockAdvance (e : ExtEvent) : ℝ :=
  Real.sqrt (((e.target.1 - e.requester.1) ^ 2 + (e.target.2 - e.requester.2) ^ 2 : ℤ) : ℝ)
      * (CELL_SIZE : ℝ) / (DRONE_SPEED : ℝ) + (EXTINGUISH_TIME : ℝ)

/-- `Environment.extinguish_fire_at(x, y, drone_pos, simulation_time)`:
if in bounds and burning, mark the cell burnt by drone, clear its cooldown,
filter it out of the active fire list, return `true`; when a requester
position (and hence the clock) is supplied, emit the clock event.
Otherwise return `false` and change nothing. -/
def Environment.extinguish_fire_at (env : Environment) (x y : ℤ)
    (drone_pos : Option (ℤ × ℤ)) : Environment × Bool × Option ExtEvent :=
  if inBounds env.width env.height (x, y) then
    let cell := env.grid x y
    if cell.fire then
      ({ env with
         grid := upd env.grid x y
           { cell with fire := false, burnt := true, tree := false,
                       fire_cooldown := 0, extinguished_by_drone := true },
         active_fires := env.active_fires.filter (fun f => ¬(f.1 = x ∧ f.2 = y)) },
       true, drone_pos.map (fun p => ⟨p, (x, y)⟩))
    else (env, false, none)
  else (env, false, none)

/-- The eight neighbour offsets, in the source's nested iteration order
(`dx` outer from -1 to 1, `dy` inner from -1 to 1, skipping `(0,0)`). -/
def offsets8 : List (ℤ × ℤ) :=
  [(-1, -1), (-1, 0), (-1, 1), (0, -1), (0, 1), (1, -1), (1, 0), (1, 1)]

/-- State threaded through one `spread_fire` pass: the grid, the
`new_fires` and `still_active` accumulators, and the next random index. -/
structure SpreadState where
  grid : ℤ → ℤ → Cell
  new_fires : List (ℤ × ℤ)
  still_active : List (ℤ × ℤ)
  k : ℕ

/-- The spread probability of one neighbour attempt (source lines 96-99):
`base = 0.05 + elev_diff * 0.003`, `+ 0.08` when `(dx, dy)` equals the wind
vector, then clamped to `[0.005, 0.4]` — the wind bonus is added before
the clamp, exactly as the source does. -/
def spread_prob (cellElev nElev : ℚ) (d : ℤ × ℤ) (wind : ℤ × ℤ) : ℚ :=
  let base := 1/20 + (nElev - cellElev) * (3/1000)
  let base2 := if d.1 = wind.1 ∧ d.2 = wind.2 then base + 2/25 else base
  qmin (qmax base2 (1/200)) (2/5)

/-- One neighbour attempt of a burning cell at `(x, y)` with elevation
`cellElev`: bounds check, eligibility check, then one random draw against
`spread_prob`; on success the neighbour ignites with cooldown 2 and is
queued in `new_fires`. -/
def tryIgnite (w h : ℤ) (wind : ℤ × ℤ) (rng : ℕ → ℚ) (x y : ℤ) (cellElev : ℚ)
    (st : SpreadState) (d : ℤ × ℤ) : SpreadState :=
  let nx := x + d.1
  let ny := y + d.2
  if inBounds w h (nx, ny) then
    let ncell := st.grid nx ny
    if ncell.tree ∧ ¬ncell.fire ∧ ¬ncell.burnt ∧ ¬ncell.water then
      if rng st.k < spread_prob cellElev ncell.elevation d wind then
        { st with
          grid := upd st.grid nx ny { ncell with fire := true, fire_cooldown := 2 },
          new_fires := st.new_fires ++ [(nx, ny)],
          k := st.k + 1 }
      else { st with k := st.k + 1 }
    else st
  else st

/-- Processing of one active fire inside `spread_fire` (source lines
77-111): decrement the cooldown (floored at 0), draw the 3% natural
burnout (which drops the cell), otherwise spread to the eight neighbours
once the cooldown is 0, re-arm the cooldown to 2, and keep the cell in
`still_active`. -/
def processFire (w h : ℤ) (wind : ℤ × ℤ) (rng : ℕ → ℚ) (st : SpreadState)
    (p : ℤ × ℤ) : SpreadState :=
  let cell0 := st.grid p.1 p.2
  let cell := if 0 < cell0.fire_cooldown then
      { cell0 with fire_cooldown := cell0.fire_cooldown - 1 } else cell0
  let grid := upd st.grid p.1 p.2 cell
  if rng st.k < 3/100 then
    { grid := upd grid p.1 p.2 { cell with fire := false, burnt := true,
                                           extinguished_by_drone := false },
      new_fires := st.new_fires, still_active := st.still_active, k := st.k + 1 }
  else
    let st1 : SpreadState :=
      { grid := grid, new_fires := st.new_fires, still_active := st.still_active,
        k := st.k + 1 }
    let st2 :=
      if cell.fire_cooldown = 0 then
        let stn := offsets8.foldl (tryIgnite w h wind rng p.1 p.2 cell.elevation) st1
        let cellp := stn.grid p.1 p.2
        { stn with grid := upd stn.grid p.1 p.2 { cellp with fire_cooldown := 2 } }
      else st1
    { st2 with still_active := st2.still_active ++ [p] }

/-- `Environment.spread_fire()`: one fire-advance tick.  The next active
fire list is the still-active survivors that are still burning plus the
newly ignited cells (source line 113). -/
def Environment.spread_fire (env : Environment) (rng : ℕ → ℚ) : Environment :=
  let st := env.active_fires.foldl (processFire env.width env.height env.wind rng)
    ⟨env.grid, [], [], 0⟩
  { env with
    grid := st.grid,
    active_fires :=
      st.still_active.filter (fun p => (st.grid p.1 p.2).fire) ++ st.new_fires }

/-- Contribution of one cell to `count_trees`: `tree` cells count as saved
first, otherwise `burnt` cells count as burnt (source lines 156-157). -/
def treeContrib (c : Cell) : ℕ × ℕ :=
  if c.tree then (1, 0) else if c.burnt then (0, 1) else (0, 0)

/-- `Environment.count_trees()`: `(saved, burnt)` totals over the grid. -/
def Environment.count_trees (env : Environment) : ℕ × ℕ :=
  (rect env.width env.height).sum fun p => treeContrib (env.grid p.1 p.2)

/-- Number of in-bounds cells currently burning. -/
def countBurning (env : Environment) : ℕ :=
  ((rect env.width env.height).filter fun p => (env.grid p.1 p.2).fire = true).card

/-- Consistency of the active fire list with the `fire` flags: every entry
is in bounds, there are no duplicates, and an in-bounds cell is burning
exactly when it is listed. -/
def EnvInv (env : Environment) : Prop :=
  (∀ p ∈ env.active_fires, p ∈ rect env.width env.height) ∧
  env.active_fires.Nodup ∧
  ∀ p ∈ rect env.width env.height,
    ((env.grid p.1 p.2).fire = true ↔ p ∈ env.active_fires)

/-- Water exclusivity: an in-bounds water cell is never forest, burning,
or burnt. -/
def WaterInv (env : Environment) : Prop :=
  ∀ p ∈ rect env.width env.height, (env.grid p.1 p.2).water = true →
    (env.grid p.1 p.2).tree = false ∧ (env.grid p.1 p.2).fire = false ∧
    (env.grid p.1 p.2).burnt = false

instance (env : Environment) : Decidable (EnvInv env) := by
  unfold EnvInv; infer_instance

instance (env : Environment) : Decidable (WaterInv env) := by
  unfold WaterInv; infer_instance

/-- The PSO drone swarm (`class DroneSwarm`); per-drone arrays are total
functions from the drone index.  The fitness value type `F` is abstract
(see the header note). -/
structure DroneSwarm (F : Type) where
  num_drones : ℕ
  positions : ℕ → ℚ × ℚ
  velocities : ℕ → ℚ × ℚ
  pbest_positions : ℕ → ℚ × ℚ
  pbest_values : ℕ → F
  gbest_position : ℚ × ℚ
  gbest_value : F
  water_left : ℕ → ℤ
  refill_timers : ℕ → ℤ
  omega : ℚ
  phi_p : ℚ
  phi_g : ℚ

/-- The floor-and-test that guards the `1e6` fitness penalty (source line
192) and the suppression skip (source line 272):
`x < 0 || x >= width || y < 0 || y >= height` on the floored position. -/
def oob_floor (w h : ℤ) (pos : ℚ × ℚ) : Prop :=
  qfloor pos.1 < 0 ∨ w ≤ qfloor pos.1 ∨ qfloor pos.2 < 0 ∨ h ≤ qfloor pos.2

instance (w h : ℤ) (pos : ℚ × ℚ) : Decidable (oob_floor w h pos) := by
  unfold oob_floor; infer_instance

/-- The PSO velocity/position update of one drone (source lines 235-252):
shared draws `r_p = rng (2i)`, `r_g = rng (2i+1)` for both axes, then the
position is clamped into `[0, dimension - 1]`.  Returns (new velocity, new
position). -/
def moveAgent {F : Type} (sw : DroneSwarm F) (w h : ℤ) (rng : ℕ → ℚ) (i : ℕ) :
    (ℚ × ℚ) × (ℚ × ℚ) :=
  let r_p := rng (2 * i)
  let r_g := rng (2 * i + 1)
  let v := sw.velocities i
  let p := sw.positions i
  let vx := sw.omega * v.1 + sw.phi_p * r_p * ((sw.pbest_positions i).1 - p.1)
      + sw.phi_g * r_g * (sw.gbest_position.1 - p.1)
  let vy := sw.omega * v.2 + sw.phi_p * r_p * ((sw.pbest_positions i).2 - p.2)
      + sw.phi_g * r_g * (sw.gbest_position.2 - p.2)
  let px := qmax 0 (qmin ((w : ℚ) - 1) (p.1 + vx))
  let py := qmax 0 (qmin ((h : ℚ) - 1) (p.2 + vy))
  ((vx, vy), (px, py))

/-- Personal/global best bookkeeping state during the fitness pass. -/
structure BestState (F : Type) where
  pbest_positions : ℕ → ℚ × ℚ
  pbest_values : ℕ → F
  gbest_position : ℚ × ℚ
  gbest_value : F

/-- The fitness pass for one drone (source lines 255-265): update the
personal best on strict improvement, and inside that branch the global
best on strict improvement. -/
def updateBest {F : Type} [LinearOrder F] (fit : ℚ × ℚ → F) (pos1 : ℕ → ℚ × ℚ)
    (b : BestState F) (i : ℕ) : BestState F :=
  let f := fit (pos1 i)
  if f < b.pbest_values i then
    let b1 : BestState F :=
      { b with pbest_positions := Function.update b.pbest_positions i (pos1 i),
               pbest_values := Function.update b.pbest_values i f }
    if f < b1.gbest_value then
      { b1 with gbest_position := pos1 i, gbest_value := f }
    else b1
  else b

/-- Accumulator of one drone's 3×3 suppression scan: environment, emitted
clock events, `extinguished_local`, and the drone's remaining water. -/
structure OffsetAcc where
  env : Environment
  events : List ExtEvent
  loc : ℕ
  water : ℤ

/-- The nine scan offsets of the suppression pass, in source order
(`dx` outer from -1 to 1, `dy` inner from -1 to 1, centre included). -/
def offsets9 : List (ℤ × ℤ) :=
  [(-1, -1), (-1, 0), (-1, 1), (0, -1), (0, 0), (0, 1), (1, -1), (1, 0), (1, 1)]

/-- One offset of the suppression scan (source lines 288-297): skip once 3
cells were suppressed or water ran out, otherwise call
`extinguish_fire_at(nx, ny, [x, y], simulation_time)` and on success count
it and spend one water unit. -/
def suppressOffset (x y : ℤ) (acc : OffsetAcc) (d : ℤ × ℤ) : OffsetAcc :=
  if 3 ≤ acc.loc ∨ acc.water ≤ 0 then acc
  else
    let r := acc.env.extinguish_fire_at (x + d.1) (y + d.2) (some (x, y))
    if r.2.1 = true then ⟨r.1, acc.events ++ r.2.2.toList, acc.loc + 1, acc.water - 1⟩
    else ⟨r.1, acc.events, acc.loc, acc.water⟩

/-- State threaded through the per-drone suppression pass. -/
structure SuppressState where
  env : Environment
  events : List ExtEvent
  count : ℕ
  water : ℕ → ℤ
  timers : ℕ → ℤ

/-- The suppression/refill pass for one drone (source lines 267-298): skip
when the floored position is out of bounds; when out of water, progress
the refill timer on a water cell and refill at `REFILL_TIME`; otherwise
run the 3×3 scan. -/
def suppressAgent (pos1 : ℕ → ℚ × ℚ) (st : SuppressState) (i : ℕ) : SuppressState :=
  let pos := pos1 i
  let x := qfloor pos.1
  let y := qfloor pos.2
  if oob_floor st.env.width st.env.height pos then st
  else
    let cell := st.env.grid x y
    if st.water i = 0 then
      if cell.water then
        let t := st.timers i + 1
        if REFILL_TIME ≤ t then
          { st with water := Function.update st.water i MAX_WATER_CAPACITY,
                    timers := Function.update st.timers i 0 }
        else { st with timers := Function.update st.timers i t }
      else st
    else
      let a := offsets9.foldl (suppressOffset x y) ⟨st.env, st.events, 0, st.water i⟩
      { env := a.env, events := a.events, count := st.count + a.loc,
        water := Function.update st.water i a.water, timers := st.timers }

/-- `DroneSwarm.step(iteration, simulation_time)`: the movement pass, the
fitness pass, then the suppression pass, in source order.  Returns the new
swarm, the mutated environment, the emitted clock events, and the tick's
`extinguished_count`. -/
def DroneSwarm.step {F : Type} [LinearOrder F] (sw : DroneSwarm F)
    (env : Environment) (fit : ℚ × ℚ → F) (rng : ℕ → ℚ) :
    DroneSwarm F × Environment × List ExtEvent × ℕ :=
  let pos1 : ℕ → ℚ × ℚ := fun i =>
    if i < sw.num_drones then (moveAgent sw env.width env.height rng i).2
    else sw.positions i
  let vel1 : ℕ → ℚ × ℚ := fun i =>
    if i < sw.num_drones then (moveAgent sw env.width env.height rng i).1
    else sw.velocities i
  let b := (List.range sw.num_drones).foldl (updateBest fit pos1)
    ⟨sw.pbest_positions, sw.pbest_values, sw.gbest_position, sw.gbest_value⟩
  let s := (List.range sw.num_drones).foldl (suppressAgent pos1)
    ⟨env, [], 0, sw.water_left, sw.refill_timers⟩
  ({ num_drones := sw.num_drones, positions := pos1, velocities := vel1,
     pbest_positions := b.pbest_positions, pbest_values := b.pbest_values,
     gbest_position := b.gbest_position, gbest_value := b.gbest_value,
     water_left := s.water, refill_timers := s.timers,
     omega := sw.omega, phi_p := sw.phi_p, phi_g := sw.phi_g },
   s.env, s.events, s.count)

/-- The `DroneSwarm` constructor (source lines 165-187): random positions
inside `[0, width-1] × [0, height-1]`, random small velocities, personal
bests seeded from the initial fitness, global best the first minimum. -/
def DroneSwarm.init {F : Type} [LinearOrder F] (env : Environment)
    (num_drones : ℕ) (fit : ℚ × ℚ → F) (rng : ℕ → ℚ) : DroneSwarm F :=
  let positions : ℕ → ℚ × ℚ := fun i =>
    if i < num_drones then
      (rng (2 * i) * ((env.width : ℚ) - 1), rng (2 * i + 1) * ((env.height : ℚ) - 1))
    else (0, 0)
  let velocities : ℕ → ℚ × ℚ := fun i =>
    if i < num_drones then
      ((rng (2 * num_drones + 2 * i) - 1/2) * 3,
       (rng (2 * num_drones + 2 * i + 1) - 1/2) * 3)
    else (0, 0)
  let pbest_values : ℕ → F := fun i => fit (positions i)
  let best_idx := (List.range num_drones).foldl
    (fun best i => if pbest_values i < pbest_values best then i else best) 0
  { num_drones := num_drones, positions := positions, velocities := velocities,
    pbest_positions := positions, pbest_values := pbest_values,
    gbest_position := positions best_idx, gbest_value := pbest_values best_idx,
    water_left := fun _ => MAX_WATER_CAPACITY, refill_timers := fun _ => 0,
    omega := 7/10, phi_p := 3/2, phi_g := 3/2 }


/-! ### Basic lemmas about grid updates and `extinguish_fire_at` -/

theorem upd_same (g : ℤ → ℤ → Cell) (x y : ℤ) (c : Cell) : upd g x y c x y = c := by
  simp [upd]

theorem upd_ne (g : ℤ → ℤ → Cell) (x y : ℤ) (c : Cell) {a b : ℤ}
    (h : ¬(a = x ∧ b = y)) : upd g x y c a b = g a b := by
  simp [upd, h]

/-! ### Witness fixtures: tiny concrete environments and swarms -/

/-- An unburnt forest cell with elevation `e`. -/
def cTreeE (e : ℚ) : Cell := ⟨true, false, false, false, e, 0, false⟩

/-- A burning forest cell with elevation `e` and cooldown 0. -/
def cFireE (e : ℚ) : Cell := ⟨true, true, false, false, e, 0, false⟩

/-- An empty (non-fuel) cell. -/
def cEmpty : Cell := ⟨false, false, false, false, 0, 0, false⟩

/-- A water cell. -/
def cWaterC : Cell := ⟨false, false, false, true, 0, 0, false⟩

/-- 1×1 environment whose single cell is burning. -/
def envW3 : Environment := ⟨1, 1, fun _ _ => cFireE 0, (1, 0), [(0, 0)]⟩

/-- 1×1 environment whose single cell is plain forest. -/
def envW7 : Environment := ⟨1, 1, fun _ _ => cTreeE 0, (1, 0), []⟩

/-! ### C7 -/

/-- C7: calling `extinguish_fire_at` on a cell that is not burning
(including out-of-bounds coordinates) returns `false`, performs no
mutation at all (the environment is returned unchanged, so every cell
field and the active fire list are untouched) and emits no clock event,
so the clock does not advance. -/
theorem extinguish_noop (env : Environment) (x y : ℤ) (dp : Option (ℤ × ℤ))
    (h : ¬(inBounds env.width env.height (x, y) ∧ (env.grid x y).fire = true)) :
    env.extinguish_fire_at x y dp = (env, false, none) := by
  unfold Environment.extinguish_fire_at
  by_cases hb : inBounds env.width env.height (x, y)
  · have hf : ¬((env.grid x y).fire = true) := fun hf => h ⟨hb, hf⟩
    simp [hb, hf]
  · simp [hb]

/-- Witness for C7 at a concrete input: the single cell of `envW7` is
forest (not burning), and extinguishing it changes nothing. -/
theorem extinguish_noop_witness :
    ¬(inBounds envW7.width envW7.height (0, 0) ∧ (envW7.grid 0 0).fire = true) ∧
    envW7.extinguish_fire_at 0 0 (some (0, 0)) = (envW7, false, none) :=
  ⟨by decide, extinguish_noop envW7 0 0 (some (0, 0)) (by decide)⟩

/-! ### C3 -/

/-- C3: extinguishing an in-bounds burning cell succeeds: it returns
`true`, the cell becomes `fire = false`, `burnt = true`, `tree = false`,
`extinguished_by_drone = true` with cooldown reset to 0, the cell is
removed from the active fire list (and nothing else is removed), the
clock event carries the requester and target, its clock advance is
`euclidean_distance * CELL_SIZE / DRONE_SPEED + EXTINGUISH_TIME`, and
when the requester equals the target the advance is exactly 40. -/
theorem extinguish_burning (env : Environment) (x y : ℤ) (p : ℤ × ℤ)
    (hin : inBounds env.width env.height (x, y))
    (hf : (env.grid x y).fire = true) :
    (env.extinguish_fire_at x y (some p)).2.1 = true ∧
    ((env.extinguish_fire_at x y (some p)).1.grid x y).fire = false ∧
    ((env.extinguish_fire_at x y (some p)).1.grid x y).burnt = true ∧
    ((env.extinguish_fire_at x y (some p)).1.grid x y).tree = false ∧
    ((env.extinguish_fire_at x y (some p)).1.grid x y).extinguished_by_drone = true ∧
    ((env.extinguish_fire_at x y (some p)).1.grid x y).fire_cooldown = 0 ∧
    (x, y) ∉ (env.extinguish_fire_at x y (some p)).1.active_fires ∧
    (∀ q ∈ env.active_fires, q ≠ (x, y) →
      q ∈ (env.extinguish_fire_at x y (some p)).1.active_fires) ∧
    (env.extinguish_fire_at x y (some p)).2.2 = some ⟨p, (x, y)⟩ ∧
    clockAdvance ⟨p, (x, y)⟩ =
      Real.sqrt (((x - p.1) ^ 2 + (y - p.2) ^ 2 : ℤ) : ℝ)
        * (CELL_SIZE : ℝ) / (DRONE_SPEED : ℝ) + (EXTINGUISH_TIME : ℝ) ∧
    (p = (x, y) → clockAdvance ⟨p, (x, y)⟩ = 40) := by
  unfold Environment.extinguish_fire_at
  simp only [hin, if_true, hf, if_pos]
  refine ⟨trivial, ?_, ?_, ?_, ?_, ?_, ?_, ?_, rfl, rfl, ?_⟩
  · simp [upd_same]
  · simp [upd_same]
  · simp [upd_same]
  · simp [upd_same]
  · simp [upd_same]
  · intro hmem
    rcases List.mem_filter.mp hmem with ⟨-, hq⟩
    simp at hq
  · intro q hq hne
    refine List.mem_filter.mpr ⟨hq, ?_⟩
    simp only [decide_eq_true_eq]
    intro hcon
    exact hne (Prod.ext hcon.1 hcon.2)
  · intro hp
    subst hp
    simp [clockAdvance, EXTINGUISH_TIME]

/-- Witness for C3 at a concrete input: the burning cell of `envW3` with
the requester standing on the target; the clock advance is exactly 40. -/
theorem extinguish_burning_witness :
    inBounds envW3.width envW3.height (0, 0) ∧ (envW3.grid 0 0).fire = true ∧
    (envW3.extinguish_fire_at 0 0 (some (0, 0))).2.1 = true ∧
    clockAdvance ⟨(0, 0), (0, 0)⟩ = 40 := by
  have h := extinguish_burning envW3 0 0 (0, 0) (by decide) (by decide)
  exact ⟨by decide, by decide, h.1, h.2.2.2.2.2.2.2.2.2.2 rfl⟩


/-! ### C1 -/

/-- 2×1 environment: a burning cell (elevation `e1`, cooldown 0) at
`(0,0)` and an eligible forest neighbour (elevation `e2`) at `(1,0)`;
all other offsets of the burning cell are out of bounds. -/
def envSpread (e1 e2 : ℚ) (wind : ℤ × ℤ) : Environment :=
  ⟨2, 1, upd (upd (fun _ _ => cEmpty) 0 0 (cFireE e1)) 1 0 (cTreeE e2), wind, [(0, 0)]⟩

/-- Oracle for `envSpread`: draw 0 (the burnout draw) is 1/2, so natural
burnout fails; every later draw is `r`. -/
def rngSpread (r : ℚ) : ℕ → ℚ := fun k => if k = 0 then 1/2 else r

/-- C1 (amended): in `spread_fire`, a burning cell with cooldown 0 ignites
an eligible neighbour iff the uniform sample is below
`clamp(0.05 + elevation_delta * 0.003 + wind_bonus, 0.005, 0.4)` where the
`+0.08` wind bonus is added *before* clamping (the source adds the bonus
to `base_prob` and clamps afterwards).  Stated for the neighbour in
direction `(1,0)` over all elevations, samples and wind vectors. -/
theorem spread_probability_draw (e1 e2 r : ℚ) (wind : ℤ × ℤ) :
    (((envSpread e1 e2 wind).spread_fire (rngSpread r)).grid 1 0).fire = true ↔
      r < min (max (1/20 + (e2 - e1) * (3/1000)
        + (if 1 = wind.1 ∧ 0 = wind.2 then 2/25 else 0)) (1/200)) (2/5) := by
  have hP : spread_prob e1 e2 (1, 0) wind
      = min (max (1/20 + (e2 - e1) * (3/1000)
        + (if 1 = wind.1 ∧ 0 = wind.2 then 2/25 else 0)) (1/200)) (2/5) := by
    unfold spread_prob
    rw [qmin_eq, qmax_eq]
    by_cases hw : (1 : ℤ) = wind.1 ∧ (0 : ℤ) = wind.2
    · simp [hw]
    · simp [hw]
  rw [← hP]
  by_cases hr : r < spread_prob e1 e2 (1, 0) wind
  · simp only [envSpread, Environment.spread_fire, List.foldl_cons, List.foldl_nil,
      processFire, tryIgnite, offsets8, rngSpread]
    norm_num [upd, cFireE, cTreeE, cEmpty, inBounds, hr]
  · simp only [envSpread, Environment.spread_fire, List.foldl_cons, List.foldl_nil,
      processFire, tryIgnite, offsets8, rngSpread]
    norm_num [upd, cFireE, cTreeE, cEmpty, inBounds, hr]

/-- Counterexample to C1 as stated: with elevation delta 99 and a
wind-matching neighbour, the claim's probability (clamp first, then add
0.08) is 0.427, and the sample 0.41 is below it — yet the draw fails,
because the source clamps after adding the bonus, capping the effective
probability at 0.4. -/
theorem spread_probability_draw_cex :
    ((41/100 : ℚ) < min (max ((1/20 : ℚ) + ((99 : ℚ) - 0) * (3/1000)) (1/200)) (2/5)
        + 2/25) ∧
    (((envSpread 0 99 (1, 0)).spread_fire (rngSpread (41/100))).grid 1 0).fire = false := by
  constructor
  · have h1 : max ((1/20 : ℚ) + ((99 : ℚ) - 0) * (3/1000)) (1/200) = 347/1000 := by
      rw [max_eq_left] <;> norm_num
    have h2 : min ((347/1000 : ℚ)) ((2/5 : ℚ)) = 347/1000 := by
      rw [min_eq_left]; norm_num
    rw [h1, h2]; norm_num
  · decide


/-! ### C6 -/

theorem updateBest_gbest_le {F : Type} [LinearOrder F] (fit : ℚ × ℚ → F)
    (pos1 : ℕ → ℚ × ℚ) (b : BestState F) (i : ℕ) :
    (updateBest fit pos1 b i).gbest_value ≤ b.gbest_value := by
  unfold updateBest
  by_cases h1 : fit (pos1 i) < b.pbest_values i
  · simp only [h1, if_true]
    by_cases h2 : fit (pos1 i) < b.gbest_value
    · simpa [h2] using le_of_lt h2
    · simp [h2]
  · simp [h1]

theorem foldl_updateBest_gbest_le {F : Type} [LinearOrder F] (fit : ℚ × ℚ → F)
    (pos1 : ℕ → ℚ × ℚ) (l : List ℕ) (b : BestState F) :
    (l.foldl (updateBest fit pos1) b).gbest_value ≤ b.gbest_value := by
  induction l generalizing b with
  | nil => simp
  | cons a t ih =>
    exact le_trans (ih (updateBest fit pos1 b a)) (updateBest_gbest_le fit pos1 b a)

/-- C6: `gbest_value` is non-increasing: every swarm step leaves it
unchanged or strictly smaller, for every environment, every random stream
and every fitness function (in particular however the landscape changed
since the previous tick). -/
theorem gbest_value_monotone {F : Type} [LinearOrder F] (sw : DroneSwarm F)
    (env : Environment) (fit : ℚ × ℚ → F) (rng : ℕ → ℚ) :
    (sw.step env fit rng).1.gbest_value = sw.gbest_value ∨
    (sw.step env fit rng).1.gbest_value < sw.gbest_value := by
  have h : (sw.step env fit rng).1.gbest_value ≤ sw.gbest_value :=
    foldl_updateBest_gbest_le fit _ (List.range sw.num_drones)
      ⟨sw.pbest_positions, sw.pbest_values, sw.gbest_position, sw.gbest_value⟩
  exact (lt_or_eq_of_le h).symm


/-! ### C2 -/

theorem extinguish_true_event (env : Environment) (x y : ℤ) (p : ℤ × ℤ)
    (h : (env.extinguish_fire_at x y (some p)).2.1 = true) :
    (env.extinguish_fire_at x y (some p)).2.2 = some ⟨p, (x, y)⟩ := by
  unfold Environment.extinguish_fire_at at h ⊢
  by_cases hb : inBounds env.width env.height (x, y)
  · simp only [hb, if_true] at h ⊢
    by_cases hf : (env.grid x y).fire = true
    · simp [hf]
    · simp [hf] at h
  · simp [hb] at h

theorem suppressOffset_events (x y : ℤ) (acc : OffsetAcc) (d : ℤ × ℤ) :
    (suppressOffset x y acc d).events = acc.events ∨
    ∃ q, (suppressOffset x y acc d).events = acc.events ++ [⟨(x, y), q⟩] := by
  unfold suppressOffset
  by_cases h1 : 3 ≤ acc.loc ∨ acc.water ≤ 0
  · simp [h1]
  · simp only [h1, if_false]
    by_cases h2 : (acc.env.extinguish_fire_at (x + d.1) (y + d.2) (some (x, y))).2.1 = true
    · right
      refine ⟨(x + d.1, y + d.2), ?_⟩
      simp [h2, extinguish_true_event _ _ _ _ h2]
    · simp [h2]

theorem foldl_suppressOffset_events (x y : ℤ) (l : List (ℤ × ℤ)) (acc : OffsetAcc) :
    ∀ e ∈ (l.foldl (suppressOffset x y) acc).events,
      e ∈ acc.events ∨ e.requester = (x, y) := by
  induction l generalizing acc with
  | nil => intro e he; exact Or.inl he
  | cons d t ih =>
    intro e he
    rcases ih (suppressOffset x y acc d) e he with h | h
    · rcases suppressOffset_events x y acc d with h2 | ⟨q, h2⟩
      · rw [h2] at h; exact Or.inl h
      · rw [h2] at h
        rcases List.mem_append.mp h with h3 | h3
        · exact Or.inl h3
        · right
          have : e = ⟨(x, y), q⟩ := by simpa using h3
          rw [this]
    · exact Or.inr h

theorem suppressAgent_events (pos1 : ℕ → ℚ × ℚ) (st : SuppressState) (i : ℕ) :
    ∀ e ∈ (suppressAgent pos1 st i).events,
      e ∈ st.events ∨ e.requester = (qfloor (pos1 i).1, qfloor (pos1 i).2) := by
  intro e he
  unfold suppressAgent at he
  by_cases h0 : oob_floor st.env.width st.env.height (pos1 i)
  · simp only [h0, if_true] at he; exact Or.inl he
  · simp only [h0, if_false] at he
    by_cases h1 : st.water i = 0
    · simp only [h1, if_true] at he
      by_cases h2 : (st.env.grid (qfloor (pos1 i).1) (qfloor (pos1 i).2)).water = true
      · simp only [h2, if_true] at he
        by_cases h3 : REFILL_TIME ≤ st.timers i + 1
        · simp only [h3, if_true] at he; exact Or.inl he
        · simp only [h3, if_false] at he; exact Or.inl he
      · simp only [h2] at he
        simp only [Bool.false_eq_true, if_false] at he
        exact Or.inl he
    · simp only [h1, if_false] at he
      exact foldl_suppressOffset_events _ _ offsets9 ⟨st.env, st.events, 0, st.water i⟩ e he

theorem foldl_suppressAgent_events (pos1 : ℕ → ℚ × ℚ) (l : List ℕ) (st : SuppressState) :
    ∀ e ∈ (l.foldl (suppressAgent pos1) st).events,
      e ∈ st.events ∨ ∃ i ∈ l, e.requester = (qfloor (pos1 i).1, qfloor (pos1 i).2) := by
  induction l generalizing st with
  | nil => intro e he; exact Or.inl he
  | cons a t ih =>
    intro e he
    rcases ih (suppressAgent pos1 st a) e he with h | ⟨i, hi, h⟩
    · rcases suppressAgent_events pos1 st a e h with h2 | h2
      · exact Or.inl h2
      · exact Or.inr ⟨a, List.mem_cons_self a t, h2⟩
    · exact Or.inr ⟨i, List.mem_cons_of_mem a hi, h⟩

/-- C2 (amended): every extinguish call made during the suppression pass
of a swarm step is passed, as the requester position, the floor of the
agent's *post-movement* position — the position already updated by this
tick's velocity/position pass (which is the position the step returns),
not the position the agent had before the tick. -/
theorem step_events_requester {F : Type} [LinearOrder F] (sw : DroneSwarm F)
    (env : Environment) (fit : ℚ × ℚ → F) (rng : ℕ → ℚ) :
    ∀ e ∈ (sw.step env fit rng).2.2.1, ∃ i, i < sw.num_drones ∧
      e.requester = (qfloor ((sw.step env fit rng).1.positions i).1,
                     qfloor ((sw.step env fit rng).1.positions i).2) := by
  intro e he
  rcases foldl_suppressAgent_events
      (fun i => if i < sw.num_drones then (moveAgent sw env.width env.height rng i).2
        else sw.positions i)
      (List.range sw.num_drones)
      ⟨env, [], 0, sw.water_left, sw.refill_timers⟩ e he with h | ⟨i, hi, h⟩
  · simp at h
  · exact ⟨i, List.mem_range.mp hi, h⟩

/-- 3×1 environment with a single fire at `(1, 0)`, used to exhibit which
requester position the suppression pass passes to `extinguish_fire_at`. -/
def envC2 : Environment :=
  ⟨3, 1, upd (fun _ _ => cTreeE 0) 1 0 (cFireE 0), (1, 0), [(1, 0)]⟩

/-- One drone at `(1/2, 1/2)` with velocity `(7/10, 0)`: its pre-movement
floored position is `(0, 0)` and its post-movement position `(6/5, 0)`
floors to `(1, 0)`. -/
def swC2 : DroneSwarm ℚ :=
  { num_drones := 1, positions := fun _ => (1/2, 1/2),
    velocities := fun _ => (7/10, 0),
    pbest_positions := fun _ => (1/2, 1/2), pbest_values := fun _ => 0,
    gbest_position := (1/2, 1/2), gbest_value := 0,
    water_left := fun _ => 3, refill_timers := fun _ => 0,
    omega := 1, phi_p := 3/2, phi_g := 3/2 }

/-- A trivial concrete fitness landscape. -/
def fitQ : ℚ × ℚ → ℚ := fun _ => 0

/-- The constant-zero random stream. -/
def rng0 : ℕ → ℚ := fun _ => 0

/-- Counterexample to C2 as stated: in this concrete step the single
extinguish call is passed requester `(1, 0)` — the post-movement floored
position — whereas the agent's pre-movement floored position is `(0, 0)`,
so the claim (requester = pre-movement floored position) is false. -/
theorem step_events_requester_cex :
    (swC2.step envC2 fitQ rng0).2.2.1 = [⟨(1, 0), (1, 0)⟩] ∧
    (qfloor (swC2.positions 0).1, qfloor (swC2.positions 0).2) = ((0 : ℤ), (0 : ℤ)) ∧
    ((0 : ℤ), (0 : ℤ)) ≠ ((1 : ℤ), (0 : ℤ)) := by
  refine ⟨by decide, by decide, by decide⟩

/-- Witness for C2 (amended) at a concrete input: the emitted event of the
`swC2` step, whose requester is the post-movement floored position. -/
theorem step_events_requester_witness :
    (⟨(1, 0), (1, 0)⟩ : ExtEvent) ∈ (swC2.step envC2 fitQ rng0).2.2.1 ∧
    ∃ i, i < swC2.num_drones ∧
      (⟨(1, 0), (1, 0)⟩ : ExtEvent).requester
        = (qfloor ((swC2.step envC2 fitQ rng0).1.positions i).1,
           qfloor ((swC2.step envC2 fitQ rng0).1.positions i).2) :=
  ⟨by decide, step_events_requester swC2 envC2 fitQ rng0 _ (by decide)⟩


/-! ### C10 -/

theorem moveAgent_pos_bounds {F : Type} (sw : DroneSwarm F) (w h : ℤ)
    (rng : ℕ → ℚ) (i : ℕ) (hw : 1 ≤ w) (hh : 1 ≤ h) :
    0 ≤ (moveAgent sw w h rng i).2.1 ∧ (moveAgent sw w h rng i).2.1 ≤ (w : ℚ) - 1 ∧
    0 ≤ (moveAgent sw w h rng i).2.2 ∧ (moveAgent sw w h rng i).2.2 ≤ (h : ℚ) - 1 := by
  have h0w : (0 : ℚ) ≤ (w : ℚ) - 1 := by
    have : (1 : ℚ) ≤ (w : ℚ) := by exact_mod_cast hw
    linarith
  have h0h : (0 : ℚ) ≤ (h : ℚ) - 1 := by
    have : (1 : ℚ) ≤ (h : ℚ) := by exact_mod_cast hh
    linarith
  unfold moveAgent
  simp only [qmax_eq, qmin_eq]
  refine ⟨le_max_left 0 _, max_le h0w (min_le_left _ _),
          le_max_left 0 _, max_le h0h (min_le_left _ _)⟩

theorem not_oob_of_bounds {w h : ℤ} {pos : ℚ × ℚ}
    (h1 : 0 ≤ pos.1) (h2 : pos.1 ≤ (w : ℚ) - 1)
    (h3 : 0 ≤ pos.2) (h4 : pos.2 ≤ (h : ℚ) - 1) : ¬ oob_floor w h pos := by
  have f1 : 0 ≤ ⌊pos.1⌋ := Int.le_floor.mpr (by exact_mod_cast h1)
  have f2 : ⌊pos.1⌋ ≤ w - 1 := by
    have := Int.floor_le_floor h2
    rwa [show ((w : ℚ) - 1) = ((w - 1 : ℤ) : ℚ) by push_cast; ring,
      Int.floor_intCast] at this
  have f3 : 0 ≤ ⌊pos.2⌋ := Int.le_floor.mpr (by exact_mod_cast h3)
  have f4 : ⌊pos.2⌋ ≤ h - 1 := by
    have := Int.floor_le_floor h4
    rwa [show ((h : ℚ) - 1) = ((h - 1 : ℤ) : ℚ) by push_cast; ring,
      Int.floor_intCast] at this
  rw [oob_floor, qfloor_eq, qfloor_eq]
  push_neg
  omega

/-- C10: with a non-degenerate grid, every agent position after a swarm
step lies in `[0, width-1] × [0, height-1]` (the clamp restores both
axes), and every initial position sampled by the constructor from uniform
draws in `[0,1)` lies there too; consequently the floored position passes
the bounds test, i.e. the out-of-bounds skip of the suppression pass and
the out-of-bounds `1e6` fitness penalty (both guarded by `oob_floor`) are
unreachable at those positions. -/
theorem positions_in_bounds {F : Type} [LinearOrder F] (sw : DroneSwarm F)
    (env : Environment) (fit : ℚ × ℚ → F) (rng : ℕ → ℚ)
    (hw : 1 ≤ env.width) (hh : 1 ≤ env.height) :
    (∀ i, i < sw.num_drones →
      0 ≤ ((sw.step env fit rng).1.positions i).1 ∧
      ((sw.step env fit rng).1.positions i).1 ≤ (env.width : ℚ) - 1 ∧
      0 ≤ ((sw.step env fit rng).1.positions i).2 ∧
      ((sw.step env fit rng).1.positions i).2 ≤ (env.height : ℚ) - 1 ∧
      ¬ oob_floor env.width env.height ((sw.step env fit rng).1.positions i)) ∧
    (∀ n i, i < n → (∀ k, 0 ≤ rng k ∧ rng k < 1) →
      0 ≤ ((DroneSwarm.init env n fit rng).positions i).1 ∧
      ((DroneSwarm.init env n fit rng).positions i).1 ≤ (env.width : ℚ) - 1 ∧
      0 ≤ ((DroneSwarm.init env n fit rng).positions i).2 ∧
      ((DroneSwarm.init env n fit rng).positions i).2 ≤ (env.height : ℚ) - 1 ∧
      ¬ oob_floor env.width env.height ((DroneSwarm.init env n fit rng).positions i)) := by
  have h0w : (0 : ℚ) ≤ (env.width : ℚ) - 1 := by
    have : (1 : ℚ) ≤ (env.width : ℚ) := by exact_mod_cast hw
    linarith
  have h0h : (0 : ℚ) ≤ (env.height : ℚ) - 1 := by
    have : (1 : ℚ) ≤ (env.height : ℚ) := by exact_mod_cast hh
    linarith
  constructor
  · intro i hi
    have hpos : (sw.step env fit rng).1.positions i
        = (moveAgent sw env.width env.height rng i).2 := by
      simp [DroneSwarm.step, hi]
    rw [hpos]
    obtain ⟨b1, b2, b3, b4⟩ := moveAgent_pos_bounds sw env.width env.height rng i hw hh
    exact ⟨b1, b2, b3, b4, not_oob_of_bounds b1 b2 b3 b4⟩
  · intro n i hi hr
    have hpos : (DroneSwarm.init env n fit rng : DroneSwarm F).positions i
        = (rng (2 * i) * ((env.width : ℚ) - 1),
           rng (2 * i + 1) * ((env.height : ℚ) - 1)) := by
      simp [DroneSwarm.init, hi]
    rw [hpos]
    obtain ⟨r1, r2⟩ := hr (2 * i)
    obtain ⟨r3, r4⟩ := hr (2 * i + 1)
    have b1 : 0 ≤ rng (2 * i) * ((env.width : ℚ) - 1) := mul_nonneg r1 h0w
    have b2 : rng (2 * i) * ((env.width : ℚ) - 1) ≤ (env.width : ℚ) - 1 :=
      mul_le_of_le_one_left h0w (le_of_lt r2)
    have b3 : 0 ≤ rng (2 * i + 1) * ((env.height : ℚ) - 1) := mul_nonneg r3 h0h
    have b4 : rng (2 * i + 1) * ((env.height : ℚ) - 1) ≤ (env.height : ℚ) - 1 :=
      mul_le_of_le_one_left h0h (le_of_lt r4)
    exact ⟨b1, b2, b3, b4, not_oob_of_bounds b1 b2 b3 b4⟩

/-- Witness for C10 at a concrete input: `swC2` on the 3×1 grid `envC2`
with the zero random stream; the stepped and the freshly initialised
positions are in bounds and pass the `oob_floor` test. -/
theorem positions_in_bounds_witness :
    (1 : ℤ) ≤ envC2.width ∧ (1 : ℤ) ≤ envC2.height ∧
    ¬ oob_floor envC2.width envC2.height ((swC2.step envC2 fitQ rng0).1.positions 0) ∧
    ¬ oob_floor envC2.width envC2.height
      ((DroneSwarm.init envC2 1 fitQ rng0 : DroneSwarm ℚ).positions 0) := by
  have h := positions_in_bounds swC2 envC2 fitQ rng0 (by decide) (by decide)
  refine ⟨by decide, by decide, (h.1 0 (by decide)).2.2.2.2, ?_⟩
  exact (h.2 1 0 (by decide) (fun k => by constructor <;> norm_num [rng0])).2.2.2.2


/-! ### C8 -/

/-- C8: in the natural-burnout path of `spread_fire` the cell keeps
`tree = true` while becoming burnt (only `fire` is cleared, `burnt` set
and `extinguished_by_drone` cleared), so `count_trees` — whose per-cell
contribution is `treeContrib`, checking `tree` first — still counts the
cell as forested `(1, 0)`; by contrast any cell with the forest flag
cleared (as agent suppression does, see `extinguish_burning`) and `burnt`
set contributes `(0, 1)`. -/
theorem natural_burnout_keeps_tree (env : Environment) (x y : ℤ) (rng : ℕ → ℚ)
    (hact : env.active_fires = [(x, y)])
    (htree : (env.grid x y).tree = true)
    (hburn : rng 0 < 3/100) :
    ((env.spread_fire rng).grid x y).tree = true ∧
    ((env.spread_fire rng).grid x y).burnt = true ∧
    ((env.spread_fire rng).grid x y).fire = false ∧
    ((env.spread_fire rng).grid x y).extinguished_by_drone = false ∧
    treeContrib ((env.spread_fire rng).grid x y) = (1, 0) ∧
    (∀ c : Cell, c.tree = false → c.burnt = true → treeContrib c = (0, 1)) := by
  refine ⟨?_, ?_, ?_, ?_, ?_, ?_⟩
  all_goals (try (intro c h1 h2; simp [treeContrib, h1, h2]))
  all_goals
    unfold Environment.spread_fire
  all_goals rw [hact]
  all_goals simp only [List.foldl_cons, List.foldl_nil]
  all_goals unfold processFire
  all_goals simp only [hburn, if_true]
  all_goals by_cases hc : 0 < (env.grid x y).fire_cooldown
  all_goals simp [upd, hc, treeContrib, htree]

/-- 1×1 environment whose single cell is burning forest (fixture for the
natural-burnout witness). -/
def envW8 : Environment := ⟨1, 1, fun _ _ => cFireE 5, (1, 0), [(0, 0)]⟩

/-- Witness for C8 at a concrete input: natural burnout of the single
burning cell of `envW8` keeps its forest flag and it still counts as
saved. -/
theorem natural_burnout_keeps_tree_witness :
    envW8.active_fires = [(0, 0)] ∧ (envW8.grid 0 0).tree = true ∧
    rng0 0 < 3/100 ∧
    ((envW8.spread_fire rng0).grid 0 0).tree = true ∧
    treeContrib ((envW8.spread_fire rng0).grid 0 0) = (1, 0) := by
  have h := natural_burnout_keeps_tree envW8 0 0 rng0 rfl (by decide) (by decide)
  exact ⟨rfl, by decide, by decide, h.1, h.2.2.2.2.1⟩


/-! ### C5: consistency of the active fire list -/

theorem mem_rect_iff {w h : ℤ} {p : ℤ × ℤ} : p ∈ rect w h ↔ inBounds w h p := by
  simp [rect, inBounds, Finset.mem_Ico, and_assoc]

theorem foldl_preserve {α β : Type} (f : β → α → β) (P : β → Prop)
    (hf : ∀ b a, P b → P (f b a)) : ∀ (l : List α) (b : β), P b → P (l.foldl f b) := by
  intro l
  induction l with
  | nil => exact fun b hb => hb
  | cons a t ih => exact fun b hb => ih (f b a) (hf b a hb)

/-- Invariant threaded through the `spread_fire` fold: with `rem` the not
yet processed suffix of the active fire list, the concatenation of
`still_active`, `rem` and `new_fires` is in bounds, duplicate-free, and
lists exactly the burning cells of the current grid. -/
def SpreadInv (w h : ℤ) (rem : List (ℤ × ℤ)) (st : SpreadState) : Prop :=
  (∀ p ∈ st.still_active ++ rem ++ st.new_fires, p ∈ rect w h) ∧
  (st.still_active ++ rem ++ st.new_fires).Nodup ∧
  ∀ p ∈ rect w h,
    ((st.grid p.1 p.2).fire = true ↔ p ∈ st.still_active ++ rem ++ st.new_fires)

theorem SpreadInv_of_fire_eq {w h : ℤ} {rem : List (ℤ × ℤ)} {st st' : SpreadState}
    (hinv : SpreadInv w h rem st)
    (hs : st'.still_active = st.still_active) (hn : st'.new_fires = st.new_fires)
    (hg : ∀ q ∈ rect w h, (st'.grid q.1 q.2).fire = (st.grid q.1 q.2).fire) :
    SpreadInv w h rem st' := by
  obtain ⟨hb, hnd, hiff⟩ := hinv
  refine ⟨by rw [hs, hn]; exact hb, by rw [hs, hn]; exact hnd, fun q hq => ?_⟩
  rw [hs, hn, hg q hq]
  exact hiff q hq

theorem perm_snoc_new (still rem new : List (ℤ × ℤ)) (q : ℤ × ℤ) :
    (still ++ rem ++ (new ++ [q])).Perm (q :: (still ++ rem ++ new)) := by
  have e : still ++ rem ++ (new ++ [q]) = (still ++ rem ++ new) ++ [q] := by
    simp [List.append_assoc]
  rw [e]
  have := @List.perm_middle _ q (still ++ rem ++ new) []
  simpa using this

theorem perm_drop_head (still rest new : List (ℤ × ℤ)) (p : ℤ × ℤ) :
    (still ++ (p :: rest) ++ new).Perm (p :: (still ++ rest ++ new)) := by
  have e1 : still ++ (p :: rest) ++ new = still ++ p :: (rest ++ new) := by
    simp [List.append_assoc]
  have e2 : still ++ rest ++ new = still ++ (rest ++ new) := by
    simp [List.append_assoc]
  rw [e1, e2]
  exact List.perm_middle

theorem eq_move_head (still rest new : List (ℤ × ℤ)) (p : ℤ × ℤ) :
    (still ++ [p]) ++ rest ++ new = still ++ (p :: rest) ++ new := by
  simp [List.append_assoc]

theorem tryIgnite_inv (w h : ℤ) (wind : ℤ × ℤ) (rng : ℕ → ℚ) (x y : ℤ) (ce : ℚ)
    (rem : List (ℤ × ℤ)) (st : SpreadState) (d : ℤ × ℤ)
    (hinv : SpreadInv w h rem st) :
    SpreadInv w h rem (tryIgnite w h wind rng x y ce st d) := by
  obtain ⟨hb, hnd, hiff⟩ := hinv
  unfold tryIgnite
  dsimp only
  split_ifs with h1 h2 h3
  · -- in bounds, eligible, draw succeeds: the neighbour ignites
    have hqrect : ((x + d.1, y + d.2) : ℤ × ℤ) ∈ rect w h := mem_rect_iff.mpr h1
    have hqfire : ¬((st.grid (x + d.1) (y + d.2)).fire = true) := h2.2.1
    have hqnot : ((x + d.1, y + d.2) : ℤ × ℤ)
        ∉ st.still_active ++ rem ++ st.new_fires :=
      fun hm => hqfire ((hiff _ hqrect).mpr hm)
    have hperm := perm_snoc_new st.still_active rem st.new_fires (x + d.1, y + d.2)
    refine ⟨?_, ?_, ?_⟩
    · intro p hp
      rcases List.mem_cons.mp (hperm.mem_iff.mp hp) with hp | hp
      · rw [hp]; exact hqrect
      · exact hb p hp
    · exact hperm.nodup_iff.mpr (List.nodup_cons.mpr ⟨hqnot, hnd⟩)
    · intro q hq
      rw [hperm.mem_iff, List.mem_cons]
      by_cases hqq : q = (x + d.1, y + d.2)
      · subst hqq
        simp [upd_same]
      · have hne : ¬(q.1 = x + d.1 ∧ q.2 = y + d.2) :=
          fun hc => hqq (Prod.ext hc.1 hc.2)
        simp only [upd, hne, if_false]
        rw [hiff q hq]
        simp [hqq]
  · exact ⟨hb, hnd, hiff⟩
  · exact ⟨hb, hnd, hiff⟩
  · exact ⟨hb, hnd, hiff⟩


theorem upd_fire_eq (g : ℤ → ℤ → Cell) (x y : ℤ) (c : Cell)
    (hc : c.fire = (g x y).fire) (a b : ℤ) :
    ((upd g x y c) a b).fire = (g a b).fire := by
  by_cases hq : a = x ∧ b = y
  · obtain ⟨h1, h2⟩ := hq
    subst h1; subst h2
    rw [upd_same, hc]
  · rw [upd_ne _ _ _ _ hq]

theorem upd_cooldown_fire_eq (g : ℤ → ℤ → Cell) (x y : ℤ) (n : ℤ) (a b : ℤ) :
    ((upd g x y { g x y with fire_cooldown := n }) a b).fire = (g a b).fire :=
  upd_fire_eq g x y { g x y with fire_cooldown := n } rfl a b

theorem SpreadInv_move (w h : ℤ) (rest : List (ℤ × ℤ)) (st : SpreadState) (p : ℤ × ℤ)
    (hinv : SpreadInv w h (p :: rest) st) :
    SpreadInv w h rest { st with still_active := st.still_active ++ [p] } := by
  obtain ⟨hb, hnd, hiff⟩ := hinv
  have e := eq_move_head st.still_active rest st.new_fires p
  refine ⟨?_, ?_, ?_⟩
  · show ∀ q ∈ (st.still_active ++ [p]) ++ rest ++ st.new_fires, q ∈ rect w h
    rw [e]; exact hb
  · show ((st.still_active ++ [p]) ++ rest ++ st.new_fires).Nodup
    rw [e]; exact hnd
  · intro q hq
    show (st.grid q.1 q.2).fire = true ↔ q ∈ (st.still_active ++ [p]) ++ rest ++ st.new_fires
    rw [e]; exact hiff q hq

theorem processFire_burnout_case (w h : ℤ) (rest : List (ℤ × ℤ)) (p : ℤ × ℤ)
    (st : SpreadState) (c : Cell) (k : ℕ)
    (hinv : SpreadInv w h (p :: rest) st) (hcf : c.fire = (st.grid p.1 p.2).fire) :
    SpreadInv w h rest
      ⟨upd (upd st.grid p.1 p.2 c) p.1 p.2
        { c with fire := false, burnt := true, extinguished_by_drone := false },
       st.new_fires, st.still_active, k⟩ := by
  obtain ⟨hb, hnd, hiff⟩ := hinv
  have hperm := perm_drop_head st.still_active rest st.new_fires p
  obtain ⟨hpnot, hnd2⟩ := List.nodup_cons.mp (hperm.nodup_iff.mp hnd)
  refine ⟨?_, hnd2, ?_⟩
  · intro q hq
    exact hb q (hperm.mem_iff.mpr (List.mem_cons.mpr (Or.inr hq)))
  · intro q hq
    by_cases hqp : q = p
    · subst hqp
      show ((upd (upd st.grid q.1 q.2 c) q.1 q.2 _) q.1 q.2).fire = true ↔ _
      rw [upd_same]
      constructor
      · intro hx; simp at hx
      · intro hm; exact absurd hm hpnot
    · have hne : ¬(q.1 = p.1 ∧ q.2 = p.2) := fun hc2 => hqp (Prod.ext hc2.1 hc2.2)
      show ((upd (upd st.grid p.1 p.2 c) p.1 p.2 _) q.1 q.2).fire = true ↔ _
      rw [upd_ne _ _ _ _ hne, upd_ne _ _ _ _ hne]
      rw [hiff q hq, hperm.mem_iff, List.mem_cons]
      simp [hqp]

theorem processFire_nospread_case (w h : ℤ) (rest : List (ℤ × ℤ)) (p : ℤ × ℤ)
    (st : SpreadState) (c : Cell) (k : ℕ)
    (hinv : SpreadInv w h (p :: rest) st) (hcf : c.fire = (st.grid p.1 p.2).fire) :
    SpreadInv w h rest
      ⟨upd st.grid p.1 p.2 c, st.new_fires, st.still_active ++ [p], k⟩ := by
  have h1 : SpreadInv w h (p :: rest)
      ⟨upd st.grid p.1 p.2 c, st.new_fires, st.still_active, k⟩ :=
    SpreadInv_of_fire_eq hinv rfl rfl
      (fun q _ => upd_fire_eq st.grid p.1 p.2 c hcf q.1 q.2)
  exact SpreadInv_move w h rest _ p h1

theorem processFire_spread_case (w h : ℤ) (wind : ℤ × ℤ) (rng : ℕ → ℚ)
    (rest : List (ℤ × ℤ)) (p : ℤ × ℤ) (st : SpreadState) (c : Cell)
    (hinv : SpreadInv w h (p :: rest) st) (hcf : c.fire = (st.grid p.1 p.2).fire) :
    SpreadInv w h rest
      (let stn := offsets8.foldl (tryIgnite w h wind rng p.1 p.2 c.elevation)
        ⟨upd st.grid p.1 p.2 c, st.new_fires, st.still_active, st.k + 1⟩
      ⟨upd stn.grid p.1 p.2 { stn.grid p.1 p.2 with fire_cooldown := 2 },
       stn.new_fires, stn.still_active ++ [p], stn.k⟩) := by
  have h1 : SpreadInv w h (p :: rest)
      ⟨upd st.grid p.1 p.2 c, st.new_fires, st.still_active, st.k + 1⟩ :=
    SpreadInv_of_fire_eq hinv rfl rfl
      (fun q _ => upd_fire_eq st.grid p.1 p.2 c hcf q.1 q.2)
  have h2 := foldl_preserve (tryIgnite w h wind rng p.1 p.2 c.elevation)
    (SpreadInv w h (p :: rest))
    (fun b a hb => tryIgnite_inv w h wind rng p.1 p.2 c.elevation (p :: rest) b a hb)
    offsets8 _ h1
  have h3 : SpreadInv w h (p :: rest)
      (let stn := offsets8.foldl (tryIgnite w h wind rng p.1 p.2 c.elevation)
        ⟨upd st.grid p.1 p.2 c, st.new_fires, st.still_active, st.k + 1⟩
      ⟨upd stn.grid p.1 p.2 { stn.grid p.1 p.2 with fire_cooldown := 2 },
       stn.new_fires, stn.still_active, stn.k⟩) :=
    SpreadInv_of_fire_eq h2 rfl rfl (fun q _ => upd_cooldown_fire_eq _ p.1 p.2 2 q.1 q.2)
  exact SpreadInv_move w h rest _ p h3

theorem processFire_inv (w h : ℤ) (wind : ℤ × ℤ) (rng : ℕ → ℚ)
    (st : SpreadState) (p : ℤ × ℤ) (rest : List (ℤ × ℤ))
    (hinv : SpreadInv w h (p :: rest) st) :
    SpreadInv w h rest (processFire w h wind rng st p) := by
  unfold processFire
  dsimp only
  split_ifs <;>
    first
      | exact processFire_burnout_case w h rest p st _ _ hinv (by rfl)
      | exact processFire_spread_case w h wind rng rest p st _ hinv (by rfl)
      | exact processFire_nospread_case w h rest p st _ _ hinv (by rfl)


theorem foldl_processFire_inv (w h : ℤ) (wind : ℤ × ℤ) (rng : ℕ → ℚ) :
    ∀ (l : List (ℤ × ℤ)) (st : SpreadState), SpreadInv w h l st →
      SpreadInv w h [] (l.foldl (processFire w h wind rng) st) := by
  intro l
  induction l with
  | nil => exact fun st hst => hst
  | cons p rest ih =>
    exact fun st hst => ih _ (processFire_inv w h wind rng st p rest hst)

theorem spread_fire_envinv (env : Environment) (rng : ℕ → ℚ) (h : EnvInv env) :
    EnvInv (env.spread_fire rng) := by
  obtain ⟨hb, hnd, hiff⟩ := h
  have h0 : SpreadInv env.width env.height env.active_fires ⟨env.grid, [], [], 0⟩ := by
    refine ⟨?_, ?_, ?_⟩
    · intro p hp
      simp only [List.nil_append, List.append_nil] at hp
      exact hb p hp
    · simp only [List.nil_append, List.append_nil]
      exact hnd
    · intro p hp
      simp only [List.nil_append, List.append_nil]
      exact hiff p hp
  have hfold := foldl_processFire_inv env.width env.height env.wind rng
    env.active_fires ⟨env.grid, [], [], 0⟩ h0
  obtain ⟨hb2, hnd2, hiff2⟩ := hfold
  unfold Environment.spread_fire
  dsimp only
  set st := env.active_fires.foldl (processFire env.width env.height env.wind rng)
    ⟨env.grid, [], [], 0⟩ with hst
  have hfil : st.still_active.filter (fun p => (st.grid p.1 p.2).fire) = st.still_active := by
    rw [List.filter_eq_self]
    intro a ha
    have haL : a ∈ st.still_active ++ [] ++ st.new_fires := by
      simp only [List.append_nil]
      exact List.mem_append.mpr (Or.inl ha)
    exact (hiff2 a (hb2 a haL)).mpr haL
  refine ⟨?_, ?_, ?_⟩
  · intro p hp
    rw [hfil] at hp
    refine hb2 p ?_
    simp only [List.append_nil]
    exact hp
  · show (st.still_active.filter (fun p => (st.grid p.1 p.2).fire) ++ st.new_fires).Nodup
    rw [hfil]
    simpa only [List.append_nil] using hnd2
  · intro q hq
    show (st.grid q.1 q.2).fire = true ↔
      q ∈ st.still_active.filter (fun p => (st.grid p.1 p.2).fire) ++ st.new_fires
    rw [hfil]
    rw [hiff2 q hq]
    simp only [List.append_nil]

theorem ignite_envinv (env : Environment) (x y : ℤ) (h : EnvInv env) :
    EnvInv (env.ignite x y) := by
  obtain ⟨hb, hnd, hiff⟩ := h
  unfold Environment.ignite
  dsimp only
  split_ifs with h1 h2
  · have hrect : ((x, y) : ℤ × ℤ) ∈ rect env.width env.height := mem_rect_iff.mpr h1
    have hnot : ((x, y) : ℤ × ℤ) ∉ env.active_fires :=
      fun hm => h2.2.1 ((hiff _ hrect).mpr hm)
    refine ⟨?_, ?_, ?_⟩
    · intro p hp
      rcases List.mem_append.mp hp with hp | hp
      · exact hb p hp
      · rw [List.mem_singleton.mp hp]; exact hrect
    · refine hnd.append (List.nodup_singleton _) ?_
      intro a ha
      simp only [List.mem_singleton]
      intro hax
      exact hnot (hax ▸ ha)
    · intro q hq
      by_cases hqq : q = (x, y)
      · subst hqq
        simp [upd]
      · have hne : ¬(q.1 = x ∧ q.2 = y) := fun hc => hqq (Prod.ext hc.1 hc.2)
        simp only [upd, hne, if_false]
        rw [hiff q hq]
        simp [hqq]
  · exact ⟨hb, hnd, hiff⟩
  · exact ⟨hb, hnd, hiff⟩

theorem extinguish_envinv (env : Environment) (x y : ℤ) (dp : Option (ℤ × ℤ))
    (h : EnvInv env) : EnvInv (env.extinguish_fire_at x y dp).1 := by
  obtain ⟨hb, hnd, hiff⟩ := h
  unfold Environment.extinguish_fire_at
  dsimp only
  split_ifs with h1 h2
  · refine ⟨?_, ?_, ?_⟩
    · intro p hp
      exact hb p (List.mem_of_mem_filter hp)
    · exact hnd.filter _
    · intro q hq
      by_cases hqq : q = (x, y)
      · subst hqq
        constructor
        · intro hx
          simp [upd] at hx
        · intro hm
          have := List.of_mem_filter hm
          simp at this
      · have hne : ¬(q.1 = x ∧ q.2 = y) := fun hc => hqq (Prod.ext hc.1 hc.2)
        simp only [upd, hne, if_false]
        rw [hiff q hq]
        constructor
        · intro hm
          refine List.mem_filter.mpr ⟨hm, ?_⟩
          simpa using not_and_or.mp hne
        · intro hm
          exact List.mem_of_mem_filter hm
  · exact ⟨hb, hnd, hiff⟩
  · exact ⟨hb, hnd, hiff⟩

theorem suppressOffset_envinv (x y : ℤ) (acc : OffsetAcc) (d : ℤ × ℤ)
    (h : EnvInv acc.env) : EnvInv (suppressOffset x y acc d).env := by
  unfold suppressOffset
  dsimp only
  split_ifs with h1 h2
  · exact h
  · exact extinguish_envinv _ _ _ _ h
  · exact extinguish_envinv _ _ _ _ h

set_option maxHeartbeats 1000000 in
theorem suppressAgent_envinv (pos1 : ℕ → ℚ × ℚ) (st : SuppressState) (i : ℕ)
    (h : EnvInv st.env) : EnvInv (suppressAgent pos1 st i).env := by
  unfold suppressAgent
  dsimp only
  split_ifs with h1 h2 h3 h4
  · exact h
  · exact h
  · exact h
  · exact h
  · exact foldl_preserve (suppressOffset (qfloor (pos1 i).1) (qfloor (pos1 i).2))
      (fun a : OffsetAcc => EnvInv a.env)
      (fun b a hb => suppressOffset_envinv _ _ b a hb) offsets9
      ⟨st.env, st.events, 0, st.water i⟩ h

theorem step_envinv {F : Type} [LinearOrder F] (sw : DroneSwarm F)
    (env : Environment) (fit : ℚ × ℚ → F) (rng : ℕ → ℚ) (h : EnvInv env) :
    EnvInv (sw.step env fit rng).2.1 :=
  foldl_preserve _ (fun st : SuppressState => EnvInv st.env)
    (fun b a hb => suppressAgent_envinv _ b a hb) (List.range sw.num_drones)
    ⟨env, [], 0, sw.water_left, sw.refill_timers⟩ h

theorem length_eq_countBurning (env : Environment) (h : EnvInv env) :
    env.active_fires.length = countBurning env := by
  obtain ⟨hb, hnd, hiff⟩ := h
  have hset : env.active_fires.toFinset
      = (rect env.width env.height).filter (fun p => (env.grid p.1 p.2).fire = true) := by
    ext q
    simp only [List.mem_toFinset, Finset.mem_filter]
    constructor
    · intro hq
      exact ⟨hb q hq, (hiff q (hb q hq)).mpr hq⟩
    · rintro ⟨h1, h2⟩
      exact (hiff q h1).mp h2
  calc env.active_fires.length
      = env.active_fires.toFinset.card := (List.toFinset_card_of_nodup hnd).symm
    _ = countBurning env := by rw [hset]; rfl


/-- C5: under the set/flag consistency invariant, the active fire list has
exactly as many entries as there are burning cells and no duplicates, and
the invariant is preserved by every tick operation: `spread_fire` (fire
advance), `ignite` (orchestrator re-ignition), `extinguish_fire_at`, and a
whole swarm step — so it holds after every tick. -/
theorem active_fires_consistency (env : Environment) (h : EnvInv env) :
    env.active_fires.length = countBurning env ∧
    env.active_fires.Nodup ∧
    (∀ rng, EnvInv (env.spread_fire rng)) ∧
    (∀ x y, EnvInv (env.ignite x y)) ∧
    (∀ x y dp, EnvInv (env.extinguish_fire_at x y dp).1) ∧
    (∀ (F : Type) (inst : LinearOrder F) (sw : DroneSwarm F) (fit : ℚ × ℚ → F)
      (rng : ℕ → ℚ), EnvInv (@DroneSwarm.step F inst sw env fit rng).2.1) :=
  ⟨length_eq_countBurning env h, h.2.1,
   fun rng => spread_fire_envinv env rng h,
   fun x y => ignite_envinv env x y h,
   fun x y dp => extinguish_envinv env x y dp h,
   fun F inst sw fit rng => @step_envinv F inst sw env fit rng h⟩

/-- 2×1 environment with a burning cell at `(0,0)` and forest at `(1,0)`,
satisfying the consistency invariant. -/
def envW5 : Environment :=
  ⟨2, 1, upd (upd (fun _ _ => cEmpty) 0 0 (cFireE 1)) 1 0 (cTreeE 2), (1, 0), [(0, 0)]⟩

/-- A one-drone swarm resting at the origin with full water. -/
def swW5 : DroneSwarm ℚ :=
  { num_drones := 1, positions := fun _ => (0, 0), velocities := fun _ => (0, 0),
    pbest_positions := fun _ => (0, 0), pbest_values := fun _ => 0,
    gbest_position := (0, 0), gbest_value := 0,
    water_left := fun _ => 3, refill_timers := fun _ => 0,
    omega := 7/10, phi_p := 3/2, phi_g := 3/2 }

/-- Witness for C5 at a concrete input: the invariant holds for `envW5`
and survives one application of each operation. -/
theorem active_fires_consistency_witness :
    EnvInv envW5 ∧
    envW5.active_fires.length = countBurning envW5 ∧
    EnvInv (envW5.spread_fire rng0) ∧
    EnvInv (envW5.ignite 1 0) ∧
    EnvInv (envW5.extinguish_fire_at 0 0 (some (0, 0))).1 ∧
    EnvInv (swW5.step envW5 fitQ rng0).2.1 := by
  have h := active_fires_consistency envW5 (by decide)
  exact ⟨by decide, h.1, h.2.2.1 rng0, h.2.2.2.1 1 0,
    h.2.2.2.2.1 0 0 (some (0, 0)), h.2.2.2.2.2 ℚ inferInstance swW5 fitQ rng0⟩

/-! ### C9: water cells never burn -/

/-- Water exclusivity of a bare grid (same statement as `WaterInv`, for
intermediate grids of the spread fold). -/
def WaterGridInv (w h : ℤ) (g : ℤ → ℤ → Cell) : Prop :=
  ∀ p ∈ rect w h, (g p.1 p.2).water = true →
    (g p.1 p.2).tree = false ∧ (g p.1 p.2).fire = false ∧ (g p.1 p.2).burnt = false

theorem upd_waterinv (w h : ℤ) (g : ℤ → ℤ → Cell) (x y : ℤ) (c : Cell)
    (hg : WaterGridInv w h g)
    (hc : ((x, y) : ℤ × ℤ) ∈ rect w h → c.water = true →
      c.tree = false ∧ c.fire = false ∧ c.burnt = false) :
    WaterGridInv w h (upd g x y c) := by
  intro p hp
  by_cases hq : p.1 = x ∧ p.2 = y
  · obtain ⟨h1, h2⟩ := hq
    have hpxy : p = (x, y) := Prod.ext h1 h2
    rw [show (upd g x y c p.1 p.2) = c by rw [h1, h2]; exact upd_same g x y c]
    exact hc (hpxy ▸ hp)
  · rw [upd_ne _ _ _ _ hq]
    exact hg p hp

theorem upd_flags_eq_waterinv (w h : ℤ) (g : ℤ → ℤ → Cell) (x y : ℤ) (c : Cell)
    (hg : WaterGridInv w h g)
    (ht : c.tree = (g x y).tree) (hf : c.fire = (g x y).fire)
    (hb : c.burnt = (g x y).burnt) (hwa : c.water = (g x y).water) :
    WaterGridInv w h (upd g x y c) := by
  refine upd_waterinv w h g x y c hg ?_
  intro hr hcw
  rw [ht, hf, hb]
  exact hg (x, y) hr (by rw [← hwa]; exact hcw)

theorem tryIgnite_waterinv (w h : ℤ) (wind : ℤ × ℤ) (rng : ℕ → ℚ) (x y : ℤ)
    (ce : ℚ) (st : SpreadState) (d : ℤ × ℤ)
    (hw : WaterGridInv w h st.grid) :
    WaterGridInv w h (tryIgnite w h wind rng x y ce st d).grid := by
  unfold tryIgnite
  dsimp only
  split_ifs with h1 h2 h3
  · refine upd_waterinv w h st.grid _ _ _ hw ?_
    intro hr hcw
    exact absurd (by simpa using hcw) h2.2.2.2
  · exact hw
  · exact hw
  · exact hw

theorem processFire_burnout_water (w h : ℤ) (rest : List (ℤ × ℤ)) (p : ℤ × ℤ)
    (st : SpreadState) (c : Cell)
    (hinv : SpreadInv w h (p :: rest) st) (hw : WaterGridInv w h st.grid)
    (ht : c.tree = (st.grid p.1 p.2).tree) (hf : c.fire = (st.grid p.1 p.2).fire)
    (hb : c.burnt = (st.grid p.1 p.2).burnt) (hwa : c.water = (st.grid p.1 p.2).water) :
    WaterGridInv w h (upd (upd st.grid p.1 p.2 c) p.1 p.2
      { c with fire := false, burnt := true, extinguished_by_drone := false }) := by
  have hfire : p ∈ rect w h → (st.grid p.1 p.2).fire = true :=
    fun hr => (hinv.2.2 p hr).mpr (by simp)
  have hwater : p ∈ rect w h → (st.grid p.1 p.2).water = false := by
    intro hr
    by_cases hb2 : (st.grid p.1 p.2).water = true
    · exact absurd (hw p hr hb2).2.1 (by simp [hfire hr])
    · simpa using hb2
  have h1 : WaterGridInv w h (upd st.grid p.1 p.2 c) :=
    upd_flags_eq_waterinv w h st.grid p.1 p.2 c hw ht hf hb hwa
  refine upd_waterinv w h _ p.1 p.2 _ h1 ?_
  intro hr hcw
  have : c.water = true := by simpa using hcw
  rw [hwa, hwater hr] at this
  exact absurd this (by simp)

theorem processFire_spread_water (w h : ℤ) (wind : ℤ × ℤ) (rng : ℕ → ℚ)
    (rest : List (ℤ × ℤ)) (p : ℤ × ℤ) (st : SpreadState) (c : Cell)
    (_hinv : SpreadInv w h (p :: rest) st) (hw : WaterGridInv w h st.grid)
    (ht : c.tree = (st.grid p.1 p.2).tree) (hf : c.fire = (st.grid p.1 p.2).fire)
    (hb : c.burnt = (st.grid p.1 p.2).burnt) (hwa : c.water = (st.grid p.1 p.2).water) :
    WaterGridInv w h
      (let stn := offsets8.foldl (tryIgnite w h wind rng p.1 p.2 c.elevation)
        ⟨upd st.grid p.1 p.2 c, st.new_fires, st.still_active, st.k + 1⟩
      upd stn.grid p.1 p.2 { stn.grid p.1 p.2 with fire_cooldown := 2 }) := by
  have h1 : WaterGridInv w h (upd st.grid p.1 p.2 c) :=
    upd_flags_eq_waterinv w h st.grid p.1 p.2 c hw ht hf hb hwa
  have h2 := foldl_preserve (tryIgnite w h wind rng p.1 p.2 c.elevation)
    (fun s : SpreadState => WaterGridInv w h s.grid)
    (fun b a hbp => tryIgnite_waterinv w h wind rng p.1 p.2 c.elevation b a hbp)
    offsets8 ⟨upd st.grid p.1 p.2 c, st.new_fires, st.still_active, st.k + 1⟩ h1
  exact upd_flags_eq_waterinv w h _ p.1 p.2 _ h2 rfl rfl rfl rfl

theorem processFire_waterinv (w h : ℤ) (wind : ℤ × ℤ) (rng : ℕ → ℚ)
    (st : SpreadState) (p : ℤ × ℤ) (rest : List (ℤ × ℤ))
    (hinv : SpreadInv w h (p :: rest) st) (hw : WaterGridInv w h st.grid) :
    WaterGridInv w h (processFire w h wind rng st p).grid := by
  unfold processFire
  dsimp only
  split_ifs <;>
    first
      | exact processFire_burnout_water w h rest p st _ hinv hw
          (by rfl) (by rfl) (by rfl) (by rfl)
      | exact processFire_spread_water w h wind rng rest p st _ hinv hw
          (by rfl) (by rfl) (by rfl) (by rfl)
      | exact upd_flags_eq_waterinv w h st.grid p.1 p.2 _ hw
          (by rfl) (by rfl) (by rfl) (by rfl)

theorem foldl_processFire_invW (w h : ℤ) (wind : ℤ × ℤ) (rng : ℕ → ℚ) :
    ∀ (l : List (ℤ × ℤ)) (st : SpreadState),
      SpreadInv w h l st → WaterGridInv w h st.grid →
      SpreadInv w h [] (l.foldl (processFire w h wind rng) st) ∧
      WaterGridInv w h (l.foldl (processFire w h wind rng) st).grid := by
  intro l
  induction l with
  | nil => exact fun st h1 h2 => ⟨h1, h2⟩
  | cons p rest ih =>
    intro st h1 h2
    exact ih _ (processFire_inv w h wind rng st p rest h1)
      (processFire_waterinv w h wind rng st p rest h1 h2)


theorem ignite_waterinv (env : Environment) (x y : ℤ) (h : WaterInv env) :
    WaterInv (env.ignite x y) := by
  unfold Environment.ignite
  dsimp only
  split_ifs with h1 h2
  · show WaterGridInv env.width env.height
      (upd env.grid x y { env.grid x y with fire := true, fire_cooldown := 3 })
    refine upd_waterinv env.width env.height env.grid x y _ h ?_
    intro hr hcw
    exact absurd (by simpa using hcw) h2.2.2.2
  · exact h
  · exact h

theorem ignite_water_noop (env : Environment) (x y : ℤ)
    (hw : (env.grid x y).water = true) : env.ignite x y = env := by
  unfold Environment.ignite
  dsimp only
  split_ifs with h1 h2
  · exact absurd hw (by simpa using h2.2.2.2)
  · rfl
  · rfl

theorem extinguish_waterinv (env : Environment) (x y : ℤ) (dp : Option (ℤ × ℤ))
    (h : WaterInv env) : WaterInv (env.extinguish_fire_at x y dp).1 := by
  unfold Environment.extinguish_fire_at
  dsimp only
  split_ifs with h1 h2
  · refine upd_waterinv env.width env.height env.grid x y _ h ?_
    intro hr hcw
    have hgw : (env.grid x y).water = true := by simpa using hcw
    have := (h (x, y) hr hgw).2.1
    rw [h2] at this
    exact absurd this (by simp)
  · exact h
  · exact h

theorem spread_fire_waterinv (env : Environment) (rng : ℕ → ℚ)
    (he : EnvInv env) (hw : WaterInv env) : WaterInv (env.spread_fire rng) := by
  obtain ⟨hb, hnd, hiff⟩ := he
  have h0 : SpreadInv env.width env.height env.active_fires ⟨env.grid, [], [], 0⟩ := by
    refine ⟨?_, ?_, ?_⟩
    · intro p hp
      simp only [List.nil_append, List.append_nil] at hp
      exact hb p hp
    · simp only [List.nil_append, List.append_nil]
      exact hnd
    · intro p hp
      simp only [List.nil_append, List.append_nil]
      exact hiff p hp
  have hres := foldl_processFire_invW env.width env.height env.wind rng
    env.active_fires ⟨env.grid, [], [], 0⟩ h0 hw
  exact hres.2

theorem suppressOffset_waterinv (x y : ℤ) (acc : OffsetAcc) (d : ℤ × ℤ)
    (h : WaterInv acc.env) : WaterInv (suppressOffset x y acc d).env := by
  unfold suppressOffset
  dsimp only
  split_ifs with h1 h2
  · exact h
  · exact extinguish_waterinv _ _ _ _ h
  · exact extinguish_waterinv _ _ _ _ h

set_option maxHeartbeats 1000000 in
theorem suppressAgent_waterinv (pos1 : ℕ → ℚ × ℚ) (st : SuppressState) (i : ℕ)
    (h : WaterInv st.env) : WaterInv (suppressAgent pos1 st i).env := by
  unfold suppressAgent
  dsimp only
  split_ifs with h1 h2 h3 h4
  · exact h
  · exact h
  · exact h
  · exact h
  · exact foldl_preserve (suppressOffset (qfloor (pos1 i).1) (qfloor (pos1 i).2))
      (fun a : OffsetAcc => WaterInv a.env)
      (fun b a hb => suppressOffset_waterinv _ _ b a hb) offsets9
      ⟨st.env, st.events, 0, st.water i⟩ h

theorem step_waterinv {F : Type} [LinearOrder F] (sw : DroneSwarm F)
    (env : Environment) (fit : ℚ × ℚ → F) (rng : ℕ → ℚ) (h : WaterInv env) :
    WaterInv (sw.step env fit rng).2.1 :=
  foldl_preserve _ (fun st : SuppressState => WaterInv st.env)
    (fun b a hb => suppressAgent_waterinv _ b a hb) (List.range sw.num_drones)
    ⟨env, [], 0, sw.water_left, sw.refill_timers⟩ h

/-- C9: no in-bounds cell is ever simultaneously water and burning: under
the water-exclusivity invariant a water cell is never forest, burning or
burnt; `ignite` on a water cell is a strict no-op; and the invariant is
preserved by `ignite` (hence by the orchestrator's random re-ignition), by
`spread_fire` (neighbour spread), by `extinguish_fire_at` and by a whole
swarm step — so no operation ever makes a water cell forest, burning or
burnt. -/
theorem water_cells_never_burn (env : Environment)
    (hw : WaterInv env) (he : EnvInv env) :
    (∀ p ∈ rect env.width env.height,
      ¬((env.grid p.1 p.2).water = true ∧ (env.grid p.1 p.2).fire = true)) ∧
    (∀ x y, (env.grid x y).water = true → env.ignite x y = env) ∧
    (∀ x y, WaterInv (env.ignite x y)) ∧
    (∀ rng, WaterInv (env.spread_fire rng)) ∧
    (∀ x y dp, WaterInv (env.extinguish_fire_at x y dp).1) ∧
    (∀ (F : Type) (inst : LinearOrder F) (sw : DroneSwarm F) (fit : ℚ × ℚ → F)
      (rng : ℕ → ℚ), WaterInv (@DroneSwarm.step F inst sw env fit rng).2.1) :=
  ⟨fun p hp hc => by
      have := (hw p hp hc.1).2.1
      rw [hc.2] at this
      exact absurd this (by simp),
   fun x y hxy => ignite_water_noop env x y hxy,
   fun x y => ignite_waterinv env x y hw,
   fun rng => spread_fire_waterinv env rng he hw,
   fun x y dp => extinguish_waterinv env x y dp hw,
   fun F inst sw fit rng => @step_waterinv F inst sw env fit rng hw⟩

/-- 2×1 environment with a water cell at `(0,0)` and a burning cell at
`(1,0)`. -/
def envW9 : Environment :=
  ⟨2, 1, upd (upd (fun _ _ => cEmpty) 0 0 cWaterC) 1 0 (cFireE 1), (1, 0), [(1, 0)]⟩

/-- A one-drone swarm fixture for the C9 witness. -/
def swW9 : DroneSwarm ℚ :=
  { num_drones := 1, positions := fun _ => (0, 0), velocities := fun _ => (0, 0),
    pbest_positions := fun _ => (0, 0), pbest_values := fun _ => 0,
    gbest_position := (0, 0), gbest_value := 0,
    water_left := fun _ => 3, refill_timers := fun _ => 0,
    omega := 7/10, phi_p := 3/2, phi_g := 3/2 }

/-- Witness for C9 at a concrete input: `envW9` satisfies both invariants;
igniting its water cell changes nothing and every operation preserves
water exclusivity. -/
theorem water_cells_never_burn_witness :
    WaterInv envW9 ∧ EnvInv envW9 ∧
    envW9.ignite 0 0 = envW9 ∧
    WaterInv (envW9.spread_fire rng0) ∧
    WaterInv (envW9.extinguish_fire_at 1 0 (some (0, 0))).1 ∧
    WaterInv (swW9.step envW9 fitQ rng0).2.1 := by
  have h := water_cells_never_burn envW9 (by decide) (by decide)
  exact ⟨by decide, by decide, h.2.1 0 0 (by decide), h.2.2.2.1 rng0,
    h.2.2.2.2.1 1 0 (some (0, 0)), h.2.2.2.2.2 ℚ inferInstance swW9 fitQ rng0⟩


/-! ### C4: water accounting -/

theorem suppressOffset_water_char (x y : ℤ) (acc : OffsetAcc) (d : ℤ × ℤ) :
    ((suppressOffset x y acc d).water = acc.water ∧
      (suppressOffset x y acc d).events = acc.events) ∨
    ((suppressOffset x y acc d).water = acc.water - 1 ∧ 1 ≤ acc.water ∧
      (acc.env.extinguish_fire_at (x + d.1) (y + d.2) (some (x, y))).2.1 = true ∧
      ∃ e, (suppressOffset x y acc d).events = acc.events ++ [e]) := by
  unfold suppressOffset
  dsimp only
  split_ifs with h1 h2
  · exact Or.inl ⟨rfl, rfl⟩
  · right
    refine ⟨rfl, ?_, h2, ⟨⟨(x, y), (x + d.1, y + d.2)⟩, ?_⟩⟩
    · have := not_or.mp h1
      omega
    · show acc.events ++
        (acc.env.extinguish_fire_at (x + d.1) (y + d.2) (some (x, y))).2.2.toList = _
      rw [extinguish_true_event _ _ _ _ h2]
      rfl
  · exact Or.inl ⟨rfl, rfl⟩

theorem foldl_suppressOffset_water (x y : ℤ) (l : List (ℤ × ℤ)) (acc : OffsetAcc) :
    (l.foldl (suppressOffset x y) acc).water ≤ acc.water ∧
    (0 ≤ acc.water → 0 ≤ (l.foldl (suppressOffset x y) acc).water) ∧
    (acc.water ≠ 0 →
      (l.foldl (suppressOffset x y) acc).water
          + ((l.foldl (suppressOffset x y) acc).events.length : ℤ)
        = acc.water + (acc.events.length : ℤ)) := by
  induction l generalizing acc with
  | nil => exact ⟨le_refl _, fun h => h, fun _ => rfl⟩
  | cons d t ih =>
    obtain ⟨ih1, ih2, ih3⟩ := ih (suppressOffset x y acc d)
    rcases suppressOffset_water_char x y acc d with ⟨hw, he⟩ | ⟨hw, h1, -, e, he⟩
    · refine ⟨by rw [List.foldl_cons]; exact le_trans ih1 (le_of_eq hw), ?_, ?_⟩
      · intro hnn
        rw [List.foldl_cons]
        exact ih2 (hw ▸ hnn)
      · intro hnz
        rw [List.foldl_cons]
        rw [ih3 (by rw [hw]; exact hnz), hw, he]
    · refine ⟨?_, ?_, ?_⟩
      · rw [List.foldl_cons]
        refine le_trans ih1 ?_
        omega
      · intro hnn
        rw [List.foldl_cons]
        refine ih2 ?_
        omega
      · intro hnz
        rw [List.foldl_cons]
        by_cases hz : (suppressOffset x y acc d).water = 0
        · -- water hit zero: every later offset is skipped, so the fold is settled
          have hstop : ∀ (l2 : List (ℤ × ℤ)) (a2 : OffsetAcc), a2.water = 0 →
              (l2.foldl (suppressOffset x y) a2).water = a2.water ∧
              (l2.foldl (suppressOffset x y) a2).events = a2.events := by
            intro l2
            induction l2 with
            | nil => exact fun a2 _ => ⟨rfl, rfl⟩
            | cons d2 t2 ih2b =>
              intro a2 ha2
              have hskip : suppressOffset x y a2 d2 = a2 := by
                unfold suppressOffset
                dsimp only
                rw [if_pos (Or.inr (le_of_eq ha2))]
              rw [List.foldl_cons, hskip]
              exact ih2b a2 ha2
          obtain ⟨hzw, hze⟩ := hstop t (suppressOffset x y acc d) hz
          rw [hzw, hze, hw, he]
          push_cast [List.length_append, List.length_singleton]
          omega
        · have h3 := ih3 hz
          rw [hw, he] at h3
          push_cast [List.length_append, List.length_singleton] at h3 ⊢
          omega


set_option maxHeartbeats 1000000 in
theorem suppressAgent_water_char (pos1 : ℕ → ℚ × ℚ) (st : SuppressState) (i : ℕ)
    (h0 : 0 ≤ st.water i) (h3 : st.water i ≤ MAX_WATER_CAPACITY)
    (t0 : 0 ≤ st.timers i) (t29 : st.timers i < REFILL_TIME) :
    (0 ≤ (suppressAgent pos1 st i).water i ∧
     (suppressAgent pos1 st i).water i ≤ MAX_WATER_CAPACITY ∧
     0 ≤ (suppressAgent pos1 st i).timers i ∧
     (suppressAgent pos1 st i).timers i < REFILL_TIME) ∧
    (st.water i < (suppressAgent pos1 st i).water i →
      st.water i = 0 ∧ (suppressAgent pos1 st i).water i = MAX_WATER_CAPACITY ∧
      st.timers i = REFILL_TIME - 1 ∧ (suppressAgent pos1 st i).timers i = 0 ∧
      (st.env.grid (qfloor (pos1 i).1) (qfloor (pos1 i).2)).water = true) := by
  unfold suppressAgent
  dsimp only
  split_ifs with h1 h2 h3b h4
  · exact ⟨⟨h0, h3, t0, t29⟩, fun hlt => absurd hlt (lt_irrefl _)⟩
  · constructor
    · refine ⟨?_, ?_, ?_, ?_⟩ <;>
        simp [Function.update_same, MAX_WATER_CAPACITY, REFILL_TIME]
    · intro _
      refine ⟨h2, ?_, ?_, ?_, h3b⟩
      · simp [Function.update_same]
      · omega
      · simp [Function.update_same]
  · constructor
    · refine ⟨h0, h3, ?_, ?_⟩ <;> simp only [Function.update_same] <;> omega
    · intro hlt
      exact absurd hlt (lt_irrefl _)
  · exact ⟨⟨h0, h3, t0, t29⟩, fun hlt => absurd hlt (lt_irrefl _)⟩
  · have hfw := foldl_suppressOffset_water (qfloor (pos1 i).1) (qfloor (pos1 i).2)
      offsets9 ⟨st.env, st.events, 0, st.water i⟩
    constructor
    · refine ⟨?_, ?_, t0, t29⟩
      · simpa only [Function.update_same] using hfw.2.1 h0
      · simp only [Function.update_same]
        exact le_trans hfw.1 h3
    · intro hlt
      simp only [Function.update_same] at hlt
      exact absurd hlt (not_lt.mpr hfw.1)

theorem suppressAgent_water_conservation (pos1 : ℕ → ℚ × ℚ) (st : SuppressState)
    (i : ℕ) (hnz : st.water i ≠ 0) :
    (suppressAgent pos1 st i).water i + ((suppressAgent pos1 st i).events.length : ℤ)
      = st.water i + (st.events.length : ℤ) := by
  unfold suppressAgent
  dsimp only
  by_cases h1 : oob_floor st.env.width st.env.height (pos1 i)
  · rw [if_pos h1]
  · rw [if_neg h1, if_neg hnz]
    have hc := (foldl_suppressOffset_water (qfloor (pos1 i).1) (qfloor (pos1 i).2)
      offsets9 ⟨st.env, st.events, 0, st.water i⟩).2.2 hnz
    simpa only [Function.update_same] using hc

theorem suppressAgent_other (pos1 : ℕ → ℚ × ℚ) (st : SuppressState) (i j : ℕ)
    (hij : i ≠ j) :
    (suppressAgent pos1 st j).water i = st.water i ∧
    (suppressAgent pos1 st j).timers i = st.timers i := by
  unfold suppressAgent
  dsimp only
  split_ifs with h1 h2 h3b h4
  · exact ⟨rfl, rfl⟩
  · exact ⟨Function.update_noteq hij _ _, Function.update_noteq hij _ _⟩
  · exact ⟨rfl, Function.update_noteq hij _ _⟩
  · exact ⟨rfl, rfl⟩
  · exact ⟨Function.update_noteq hij _ _, rfl⟩

theorem foldl_suppressAgent_other (pos1 : ℕ → ℚ × ℚ) :
    ∀ (l : List ℕ) (st : SuppressState) (i : ℕ), i ∉ l →
      (l.foldl (suppressAgent pos1) st).water i = st.water i ∧
      (l.foldl (suppressAgent pos1) st).timers i = st.timers i := by
  intro l
  induction l with
  | nil => exact fun st i _ => ⟨rfl, rfl⟩
  | cons a t ih =>
    intro st i hri
    have hia : i ≠ a := fun h => hri (by rw [h]; exact List.mem_cons_self a t)
    have hit : i ∉ t := fun h => hri (List.mem_cons_of_mem a h)
    obtain ⟨w1, t1⟩ := suppressAgent_other pos1 st i a hia
    obtain ⟨w2, t2⟩ := ih (suppressAgent pos1 st a) i hit
    rw [List.foldl_cons]
    exact ⟨by rw [w2, w1], by rw [t2, t1]⟩

theorem extinguish_grid_water (env : Environment) (x y : ℤ) (dp : Option (ℤ × ℤ))
    (a b : ℤ) :
    ((env.extinguish_fire_at x y dp).1.grid a b).water = (env.grid a b).water := by
  unfold Environment.extinguish_fire_at
  dsimp only
  split_ifs with h1 h2
  · show ((upd env.grid x y
        ⟨false, false, true, (env.grid x y).water, (env.grid x y).elevation, 0, true⟩)
          a b).water = (env.grid a b).water
    by_cases hab : a = x ∧ b = y
    · obtain ⟨e1, e2⟩ := hab
      subst e1; subst e2
      rw [upd_same]
    · rw [upd_ne _ _ _ _ hab]
  · rfl
  · rfl

theorem suppressOffset_grid_water (x y : ℤ) (acc : OffsetAcc) (d : ℤ × ℤ)
    (a b : ℤ) :
    ((suppressOffset x y acc d).env.grid a b).water = (acc.env.grid a b).water := by
  unfold suppressOffset
  dsimp only
  split_ifs with h1 h2
  · rfl
  · exact extinguish_grid_water _ _ _ _ _ _
  · exact extinguish_grid_water _ _ _ _ _ _

theorem foldl_suppressOffset_grid_water (x y : ℤ) :
    ∀ (l : List (ℤ × ℤ)) (acc : OffsetAcc) (a b : ℤ),
      ((l.foldl (suppressOffset x y) acc).env.grid a b).water
        = (acc.env.grid a b).water := by
  intro l
  induction l with
  | nil => exact fun acc a b => rfl
  | cons d t ih =>
    intro acc a b
    rw [List.foldl_cons, ih, suppressOffset_grid_water]

theorem suppressAgent_grid_water (pos1 : ℕ → ℚ × ℚ) (st : SuppressState) (j : ℕ)
    (a b : ℤ) :
    ((suppressAgent pos1 st j).env.grid a b).water = (st.env.grid a b).water := by
  unfold suppressAgent
  dsimp only
  by_cases h1 : oob_floor st.env.width st.env.height (pos1 j)
  · rw [if_pos h1]
  · rw [if_neg h1]
    by_cases h2 : st.water j = 0
    · rw [if_pos h2]
      by_cases h3 : (st.env.grid (qfloor (pos1 j).1) (qfloor (pos1 j).2)).water = true
      · rw [if_pos h3]
        by_cases h4 : REFILL_TIME ≤ st.timers j + 1
        · rw [if_pos h4]
        · rw [if_neg h4]
      · rw [if_neg h3]
    · rw [if_neg h2]
      dsimp only
      exact foldl_suppressOffset_grid_water (qfloor (pos1 j).1) (qfloor (pos1 j).2)
        offsets9 ⟨st.env, st.events, 0, st.water j⟩ a b

theorem foldl_suppressAgent_grid_water (pos1 : ℕ → ℚ × ℚ) :
    ∀ (l : List ℕ) (st : SuppressState) (a b : ℤ),
      ((l.foldl (suppressAgent pos1) st).env.grid a b).water
        = (st.env.grid a b).water := by
  intro l
  induction l with
  | nil => exact fun st a b => rfl
  | cons j t ih =>
    intro st a b
    rw [List.foldl_cons, ih, suppressAgent_grid_water]


set_option maxHeartbeats 1000000 in
/-- C4: water accounting of a swarm step.  First conjunct: for every agent,
`water_left` stays within `[0, MAX_WATER_CAPACITY]` and the refill timer
within `[0, REFILL_TIME)`; `water_left` increases only by being reset to
full capacity, which happens exactly when the agent was empty, had spent
`REFILL_TIME - 1` earlier ticks on a water cell (the timer reaching
`REFILL_TIME` this tick and resetting to 0) and is floored onto a water
cell.  Second conjunct: during the suppression scan, water plus the number
of emitted extinguish events is conserved — each unit of water spent
corresponds to exactly one successful suppression.  Third conjunct: one
scan offset either changes nothing or decrements water by exactly 1, and
that exactly when `extinguish_fire_at` returned `true` (one event). -/
theorem water_accounting {F : Type} [LinearOrder F] (sw : DroneSwarm F)
    (env : Environment) (fit : ℚ × ℚ → F) (rng : ℕ → ℚ)
    (hw : ∀ i, i < sw.num_drones →
      0 ≤ sw.water_left i ∧ sw.water_left i ≤ MAX_WATER_CAPACITY)
    (ht : ∀ i, i < sw.num_drones →
      0 ≤ sw.refill_timers i ∧ sw.refill_timers i < REFILL_TIME) :
    (∀ i, i < sw.num_drones →
      (0 ≤ (sw.step env fit rng).1.water_left i ∧
       (sw.step env fit rng).1.water_left i ≤ MAX_WATER_CAPACITY ∧
       0 ≤ (sw.step env fit rng).1.refill_timers i ∧
       (sw.step env fit rng).1.refill_timers i < REFILL_TIME) ∧
      (sw.water_left i < (sw.step env fit rng).1.water_left i →
        sw.water_left i = 0 ∧
        (sw.step env fit rng).1.water_left i = MAX_WATER_CAPACITY ∧
        sw.refill_timers i = REFILL_TIME - 1 ∧
        (sw.step env fit rng).1.refill_timers i = 0 ∧
        (env.grid (qfloor ((sw.step env fit rng).1.positions i).1)
                  (qfloor ((sw.step env fit rng).1.positions i).2)).water = true)) ∧
    (∀ (pos1 : ℕ → ℚ × ℚ) (st : SuppressState) (i : ℕ), st.water i ≠ 0 →
      (suppressAgent pos1 st i).water i + ((suppressAgent pos1 st i).events.length : ℤ)
        = st.water i + (st.events.length : ℤ)) ∧
    (∀ (x y : ℤ) (acc : OffsetAcc) (d : ℤ × ℤ),
      ((suppressOffset x y acc d).water = acc.water ∧
        (suppressOffset x y acc d).events = acc.events) ∨
      ((suppressOffset x y acc d).water = acc.water - 1 ∧ 1 ≤ acc.water ∧
        (acc.env.extinguish_fire_at (x + d.1) (y + d.2) (some (x, y))).2.1 = true ∧
        ∃ e, (suppressOffset x y acc d).events = acc.events ++ [e])) := by
  refine ⟨?_, suppressAgent_water_conservation, suppressOffset_water_char⟩
  intro i hi
  set pos1v : ℕ → ℚ × ℚ := fun k =>
    if k < sw.num_drones then (moveAgent sw env.width env.height rng k).2
    else sw.positions k with hpos1v
  obtain ⟨l1, l2, he⟩ := List.append_of_mem (List.mem_range.mpr hi)
  have hnd : (l1 ++ i :: l2).Nodup := by
    have h0 := List.nodup_range (n := sw.num_drones)
    rwa [he] at h0
  have hil1 : i ∉ l1 :=
    fun hm => (List.disjoint_of_nodup_append hnd) hm (List.mem_cons_self i l2)
  have hil2 : i ∉ l2 := (List.nodup_cons.mp (List.nodup_append.mp hnd).2.1).1
  set initS : SuppressState := ⟨env, [], 0, sw.water_left, sw.refill_timers⟩ with hinitS
  set stA := l1.foldl (suppressAgent pos1v) initS with hstA
  have hfold : (List.range sw.num_drones).foldl (suppressAgent pos1v) initS
      = l2.foldl (suppressAgent pos1v) (suppressAgent pos1v stA i) := by
    rw [he, List.foldl_append, List.foldl_cons]
  have hWp : (sw.step env fit rng).1.water_left
      = ((List.range sw.num_drones).foldl (suppressAgent pos1v) initS).water := rfl
  have hTp : (sw.step env fit rng).1.refill_timers
      = ((List.range sw.num_drones).foldl (suppressAgent pos1v) initS).timers := rfl
  have hPp : (sw.step env fit rng).1.positions = pos1v := rfl
  obtain ⟨wA, tA⟩ := foldl_suppressAgent_other pos1v l1 initS i hil1
  have wA' : stA.water i = sw.water_left i := wA
  have tA' : stA.timers i = sw.refill_timers i := tA
  have hwi := hw i hi
  have hti := ht i hi
  have hchar := suppressAgent_water_char pos1v stA i
    (by rw [wA']; exact hwi.1) (by rw [wA']; exact hwi.2)
    (by rw [tA']; exact hti.1) (by rw [tA']; exact hti.2)
  obtain ⟨wB, tB⟩ := foldl_suppressAgent_other pos1v l2 (suppressAgent pos1v stA i) i hil2
  have hW : (sw.step env fit rng).1.water_left i = (suppressAgent pos1v stA i).water i := by
    rw [hWp, hfold]; exact wB
  have hT : (sw.step env fit rng).1.refill_timers i
      = (suppressAgent pos1v stA i).timers i := by
    rw [hTp, hfold]; exact tB
  constructor
  · rw [hW, hT]
    exact hchar.1
  · intro hlt
    rw [hW] at hlt
    rw [← wA'] at hlt
    obtain ⟨c1, c2, c3, c4, c5⟩ := hchar.2 hlt
    have hg : (stA.env.grid (qfloor (pos1v i).1) (qfloor (pos1v i).2)).water
        = (env.grid (qfloor (pos1v i).1) (qfloor (pos1v i).2)).water :=
      foldl_suppressAgent_grid_water pos1v l1 initS _ _
    refine ⟨?_, ?_, ?_, ?_, ?_⟩
    · rw [← wA']; exact c1
    · rw [hW]; exact c2
    · rw [← tA']; exact c3
    · rw [hT]; exact c4
    · rw [hPp, ← hg]
      exact c5

/-- Witness for C4 at a concrete input: the hypotheses hold for `swC2`
(full water, zero timers) and the stepped water stays within bounds. -/
theorem water_accounting_witness :
    (0 ≤ (swC2.step envC2 fitQ rng0).1.water_left 0 ∧
     (swC2.step envC2 fitQ rng0).1.water_left 0 ≤ MAX_WATER_CAPACITY) ∧
    (0 ≤ (swC2.step envC2 fitQ rng0).1.refill_timers 0 ∧
     (swC2.step envC2 fitQ rng0).1.refill_timers 0 < REFILL_TIME) := by
  have h := water_accounting swC2 envC2 fitQ rng0
    (fun i _ => ⟨show (0 : ℤ) ≤ 3 by decide, show (3 : ℤ) ≤ MAX_WATER_CAPACITY by decide⟩)
    (fun i _ => ⟨show (0 : ℤ) ≤ 0 by decide, show (0 : ℤ) < REFILL_TIME by decide⟩)
  obtain ⟨b1, b2, b3, b4⟩ := (h.1 0 (by decide)).1
  exact ⟨⟨b1, b2⟩, ⟨b3, b4⟩⟩

end SwarmSim
